import Mathlib

/-!
Verification development for the `sqlite-schema-diff` repository
(package `pkg/diff` and `pkg/schema`).

The Go sources are shallowly embedded: strings are Lean `String`s
(operated on through their `List Char` contents), Go maps are modelled as
association lists together with a well-formedness predicate saying the
keys are distinct (Go map iteration order is unspecified, so theorems that
depend on a particular order take the list order as the iteration order,
and determinism across orders is proved explicitly), and every function is
a computable Lean `def` mirroring its Go counterpart statement by
statement.

Byte-level caveats of the embedding, recorded once here: Go's
`strings.ToLower` / `ToUpper` / `EqualFold` and `unicode.IsSpace` act on
full Unicode; the embedding models their behaviour on the ASCII range
(`Char.toLower`/`Char.toUpper` and the six ASCII space characters), which
coincides with Go on every string appearing in the repository and in the
theorems below.  Go's `%q` formatting is modelled as wrapping in double
quotes (no character of the names used here needs escaping).
-/

namespace SqliteSchemaDiff

/-- The single-quote character, written via its code point so that the
source text of this file stays free of stray quote characters. -/
def sq : Char := Char.ofNat 39

/-- The backtick character. -/
def btick : Char := Char.ofNat 96

/-- ASCII model of Go `unicode.IsSpace` (space, tab, newline, vertical
tab, form feed, carriage return). -/
def goIsSpace (c : Char) : Bool :=
  c == ' ' || c == '\t' || c == '\n' || c == Char.ofNat 11 || c == Char.ofNat 12 || c == '\r'

/-- Go `strings.TrimSpace` on char lists: drop leading and trailing
whitespace. -/
def goTrimSpaceL (l : List Char) : List Char :=
  ((l.dropWhile goIsSpace).reverse.dropWhile goIsSpace).reverse

/-- Go `strings.TrimSuffix` on char lists. -/
def trimSuffixL (suf l : List Char) : List Char :=
  if suf.isSuffixOf l then l.take (l.length - suf.length) else l

/-- Go `strings.Fields` on char lists: the maximal runs of
non-whitespace characters. -/
def fieldsL (l : List Char) : List (List Char) :=
  (l.splitOnP goIsSpace).filter (fun p => !p.isEmpty)

/-- Go `strings.ToLower` (ASCII model). -/
def toLowerL (l : List Char) : List Char := l.map Char.toLower

/-- Go `strings.ToUpper` (ASCII model). -/
def toUpperL (l : List Char) : List Char := l.map Char.toUpper

/-- Worker for `replaceAllL`, structurally recursive on a fuel argument
so that the kernel can evaluate it.  Every step consumes at least one
input character, so with fuel at least the input length the
fuel-exhaustion branch is unreachable. -/
def replaceAllGo (old new : List Char) : Nat → List Char → List Char
  | _, [] => []
  | 0, l => l
  | fuel + 1, c :: rest =>
    if old ≠ [] ∧ old.isPrefixOf (c :: rest) then
      new ++ replaceAllGo old new fuel (rest.drop (old.length - 1))
    else
      c :: replaceAllGo old new fuel rest

/-- Go `strings.ReplaceAll` on char lists: scan left to right, replace
each non-overlapping occurrence of `old`, continue after the replacement.
(Go inserts `new` between all characters when `old` is empty; the
repository never calls it that way, and the model leaves the list
unchanged in that case.) -/
def replaceAllL (old new l : List Char) : List Char :=
  replaceAllGo old new l.length l

/-- Go `strings.Replace(s, old, new, 1)` on char lists: replace only the
first occurrence. -/
def replaceFirstL (old new : List Char) : List Char → List Char
  | [] => []
  | c :: rest =>
    if old ≠ [] ∧ old.isPrefixOf (c :: rest) then
      new ++ rest.drop (old.length - 1)
    else
      c :: replaceFirstL old new rest

/-- Go `strings.Contains` on char lists. -/
def containsL (sub : List Char) : List Char → Bool
  | [] => sub.isEmpty
  | c :: rest => sub.isPrefixOf (c :: rest) || containsL sub rest

/-- Go `strings.Join(fields, " ")` for the field lists used by the
normalizer. -/
def joinSpaceL (ps : List (List Char)) : List Char :=
  List.intercalate [' '] ps

/-- The body of a string-literal match of the regular expression
`'((?:[^']|'')*)'` (file `normalize.go`, `stringLiteralRe`), starting
right after an opening quote.  Returns the content characters (doubled
quotes kept as they appear) together with the characters after the
closing quote, or `none` when the regular expression does not match at
this opening quote.  The branch returning `some ([], rest)` at a quote
pair whose recursive match fails reproduces the engine's backtracking:
the greedy inner star gives the pair back and the pair's first quote
becomes the closing quote. -/
def litBody : List Char → Option (List Char × List Char)
  | [] => none
  | c :: rest =>
    if c == sq then
      match rest with
      | q :: rest2 =>
        if q == sq then
          match litBody rest2 with
          | some (body, r) => some (sq :: sq :: body, r)
          | none => some ([], rest)
        else
          some ([], rest)
      | [] => some ([], [])
    else
      match litBody rest with
      | some (body, r) => some (c :: body, r)
      | none => none

theorem litBody_rest_length_le (l : List Char) :
    ∀ body r, litBody l = some (body, r) → r.length ≤ l.length := by
  induction l using litBody.induct with
  | case1 => intro body r h; simp [litBody] at h
  | case2 c hc q rest2 hq b2 r2 hlit ih =>
    intro body r h
    simp only [litBody, hc, hq, hlit, if_true] at h
    simp at h
    obtain ⟨_, hr⟩ := h
    have := ih b2 r2 hlit
    subst hr
    simp
    omega
  | case3 c hc q rest2 hq hlit ih =>
    intro body r h
    simp only [litBody, hc, hq, hlit, if_true] at h
    simp at h
    obtain ⟨_, hr⟩ := h
    subst hr
    simp only [List.length_cons]
    omega
  | case4 c hc q rest2 hq =>
    intro body r h
    simp only [litBody, hc, hq, if_true, if_false] at h
    simp at h
    obtain ⟨_, hr⟩ := h
    subst hr
    simp only [List.length_cons]
    omega
  | case5 c hc =>
    intro body r h
    simp only [litBody, hc, if_true] at h
    simp at h
    obtain ⟨_, hr⟩ := h
    subst hr
    simp
  | case6 c rest hc b2 r2 hlit ih =>
    intro body r h
    rw [litBody.eq_def] at h
    simp [hc, hlit] at h
    obtain ⟨_, hr⟩ := h
    have := ih b2 r2 hlit
    subst hr
    simp only [List.length_cons]
    omega
  | case7 c rest hc hlit ih =>
    intro body r h
    rw [litBody.eq_def] at h
    simp [hc, hlit] at h

/-- The text of the `i`-th masking placeholder as it is searched for
during restoration (`__str_protect_i__`, without padding). -/
def placeholderCore (n : Nat) : List Char :=
  ("__str_protect_" ++ toString n ++ "__").data

/-- The replacement text inserted while masking, ` __str_protect_i__ `
(padded with one space on each side, as in `normalize.go`). -/
def padPlaceholder (n : Nat) : List Char :=
  ' ' :: (placeholderCore n ++ [' '])

/-- The literal-masking pass of `normalizeSQL` (`normalize.go`,
`stringLiteralRe.ReplaceAllStringFunc`): repeatedly find the leftmost
match of the string-literal regular expression, record the literal and
replace it with a padded placeholder, continuing after the match.  When
the regular expression fails at an opening quote no further match exists
(a failed match means no quote characters remain), matching the engine's
behaviour of finding no further occurrence. -/
def extractLitsGo : Nat → List Char → Nat → List Char × List (List Char)
  | 0, l, _ => (l, [])
  | fuel + 1, l, n =>
    let pre := l.takeWhile (fun c => !(c == sq))
    match l.dropWhile (fun c => !(c == sq)) with
    | [] => (l, [])
    | _ :: after =>
      match litBody after with
      | some (body, r) =>
        let res := extractLitsGo fuel r (n + 1)
        (pre ++ padPlaceholder n ++ res.1, (sq :: (body ++ [sq])) :: res.2)
      | none => (l, [])

/-- Entry point of the masking pass.  Each successful match consumes at
least the opening quote (`litBody_rest_length_le` bounds the remainder by
the characters after it), so fuel `l.length + 1` makes the
fuel-exhaustion branch of the worker unreachable. -/
def extractLits (l : List Char) (n : Nat) : List Char × List (List Char) :=
  extractLitsGo (l.length + 1) l n

/-- The restoration pass of `normalizeSQL` (`normalize.go`): for each
recorded literal in order, replace the first occurrence of its
(unpadded) placeholder text. -/
def restoreLits : List Char → List (List Char) → Nat → List Char
  | l, [], _ => l
  | l, lit :: rest, i => restoreLits (replaceFirstL (placeholderCore i) lit l) rest (i + 1)

/-- `performNormalization` from `normalize.go`: trim, drop a trailing
semicolon, optionally strip identifier quoting, collapse whitespace and
lowercase, normalize spacing around `( ) , =`, re-insert a space after
every comma, collapse double spaces until none remain, trim.  The
collapse loop is run with fuel equal to the list length, which bounds the
number of iterations of the Go `for strings.Contains` loop because every
iteration shortens the list. -/
def collapseLoop : Nat → List Char → List Char
  | 0, l => l
  | n + 1, l =>
    if containsL [' ', ' '] l then collapseLoop n (replaceAllL [' ', ' '] [' '] l) else l

def performNormalization (stripQuotes : Bool) (l : List Char) : List Char :=
  let l := goTrimSpaceL l
  let l := trimSuffixL [';'] l
  let l := if stripQuotes then
      replaceAllL [']'] [] (replaceAllL ['['] [] (replaceAllL [btick] [] (replaceAllL ['"'] [] l)))
    else l
  let l := toLowerL (joinSpaceL (fieldsL l))
  let l := replaceAllL ['(', ' '] ['('] (replaceAllL [' ', '('] ['('] l)
  let l := replaceAllL [')', ' '] [')'] (replaceAllL [' ', ')'] [')'] l)
  let l := replaceAllL [',', ' '] [','] (replaceAllL [' ', ','] [','] l)
  let l := replaceAllL ['=', ' '] ['='] (replaceAllL [' ', '='] ['='] l)
  let l := replaceAllL [','] [',', ' '] l
  let l := collapseLoop l.length l
  goTrimSpaceL l

/-- `normalizeSQL` from `normalize.go`: mask string literals, run
`performNormalization`, then restore the literals by reverse
substitution of the placeholder texts. -/
def normalizeSQL (sql : String) (stripQuotes : Bool) : String :=
  let masked := extractLits sql.data 0
  String.mk (restoreLits (performNormalization stripQuotes masked.1) masked.2 0)

/-! ## Schema model (`pkg/schema/schema.go`)

Go maps are modelled as association lists (`List (String × _)`); the
list order stands for the map's iteration order.  `wellFormed` expresses
what holds of every snapshot a Go map can produce: distinct keys, and
(as the extractor guarantees) each table value carrying its key as its
name. -/

/-- A table column, as filled from `PRAGMA table_info`.  The Go field
`Default *string` is an `Option String` here. -/
structure Column where
  name : String
  type : String
  notNull : Bool
  dflt : Option String
  primaryKey : Nat
deriving DecidableEq

structure Table where
  name : String
  columns : List Column
  sql : String
deriving DecidableEq

structure Index where
  name : String
  table : String
  sql : String
deriving DecidableEq

structure View where
  name : String
  sql : String
deriving DecidableEq

structure Trigger where
  name : String
  table : String
  sql : String
deriving DecidableEq

structure Database where
  tables : List (String × Table)
  indexes : List (String × Index)
  views : List (String × View)
  triggers : List (String × Trigger)
deriving DecidableEq

/-- `Table.HasColumn` from `schema.go`. -/
def hasColumn (t : Table) (n : String) : Bool :=
  t.columns.any (fun c => c.name == n)

/-- `Table.GetColumn` from `schema.go` (first column with the name). -/
def getColumn (t : Table) (n : String) : Option Column :=
  t.columns.find? (fun c => c.name == n)

/-- Well-formedness of a snapshot: the four key lists are duplicate-free
(true of any Go map), each table's `Name` field equals its map key, and
each table's column names are distinct (both true of every snapshot the
extractor builds — SQLite rejects duplicate column names). -/
def wellFormed (db : Database) : Prop :=
  (db.tables.map Prod.fst).Nodup ∧ (db.indexes.map Prod.fst).Nodup ∧
    (db.views.map Prod.fst).Nodup ∧ (db.triggers.map Prod.fst).Nodup ∧
    (∀ e ∈ db.tables, e.2.name = e.1) ∧
    ∀ e ∈ db.tables, (e.2.columns.map Column.name).Nodup

instance (db : Database) : Decidable (wellFormed db) := by
  unfold wellFormed; infer_instance

/-! ## The diff package (`pkg/diff/diff.go`)

The current `diff.go` of the repository is not among the source files
(the tree carries a stale revision of it that cannot compile against the
current `normalize.go` and `diff_test.go`); the functions below follow
that stale revision wherever it agrees with the specification, and the
few points where the two generations differ are modelled from the spec
and marked `Modelled from the spec:` in their doc comments. -/

inductive ChangeType where
  | createTable | dropTable | addColumn | recreateTable
  | createIndex | dropIndex | createView | dropView
  | createTrigger | dropTrigger
deriving DecidableEq

/-- `Change` from `diff.go`. -/
structure Change where
  type : ChangeType
  object : String
  description : String
  sql : List String
  destructive : Bool
deriving DecidableEq

/-- Go `fmt.Sprintf("%q", s)` for the plain identifiers used here. -/
def goQuote (s : String) : String := "\"" ++ s ++ "\""

/-- `ensureSemicolon` from `diff.go`. -/
def ensureSemicolon (s : String) : String :=
  let t := goTrimSpaceL s.data
  String.mk (if [';'].isSuffixOf t then t else t ++ [';'])

/-- ASCII model of Go `strings.EqualFold`. -/
def goEqualFold (a b : String) : Bool :=
  toLowerL a.data == toLowerL b.data

/-- `normalizeDefault` from `diff.go`: trim and lowercase. -/
def normalizeDefault (s : String) : String :=
  String.mk (toLowerL (goTrimSpaceL s.data))

/-- `columnChanged` from `diff.go`: type (case-insensitive), NOT NULL,
primary-key membership, and normalized defaults (absent mapped to the
empty string). -/
def columnChanged (cf ct : Column) : Bool :=
  if !(goEqualFold cf.type ct.type) then true
  else if cf.notNull != ct.notNull then true
  else if (decide (0 < cf.primaryKey)) != (decide (0 < ct.primaryKey)) then true
  else
    (match cf.dflt with | some d => normalizeDefault d | none => "") !=
      (match ct.dflt with | some d => normalizeDefault d | none => "")

/-- Modelled from the spec: `defaultForType` of the missing current
`diff.go` (spec §4.3 decision rule 4; behaviour fixed by
`TestDefaultForType` in `diff_test.go`): the synthetic default injected
for a NOT NULL column with no declared default, chosen by type family. -/
def defaultForType (t : String) : String :=
  let u := String.mk (toUpperL t.data)
  if u == "INTEGER" || u == "INT" || u == "BIGINT" || u == "SMALLINT" || u == "TINYINT" then "0"
  else if u == "REAL" || u == "FLOAT" || u == "DOUBLE" then "0.0"
  else if u == "BLOB" then String.mk ['X', sq, sq]
  else String.mk [sq, sq]

/-- `generateAddColumnSQL`: builds the `ALTER TABLE … ADD COLUMN …`
statement.  For a NOT NULL column with no declared default the statement
drops the NOT NULL qualifier and injects `defaultForType` (the stale
revision hardcoded the empty-string default; the current behaviour is
fixed by `TestGenerateAddColumnSQL`). -/
def generateAddColumnSQL (tableName : String) (col : Column) : String :=
  let base := "ALTER TABLE " ++ goQuote tableName ++ " ADD COLUMN " ++ goQuote col.name
  let base := if col.type != "" then base ++ " " ++ col.type else base
  let base :=
    if col.notNull then
      match col.dflt with
      | some d => base ++ " NOT NULL DEFAULT " ++ d
      | none => base ++ " DEFAULT " ++ defaultForType col.type
    else
      match col.dflt with
      | some d => base ++ " DEFAULT " ++ d
      | none => base
  base ++ ";"

/-- Word characters of the regular expression class `\w` (ASCII). -/
def isWordChar (c : Char) : Bool := c.isAlphanum || c == '_'

/-- Case-insensitive literal match: if `l` starts with `pat` up to ASCII
case, return the remainder. -/
def matchCI (pat l : List Char) : Option (List Char) :=
  if toLowerL (l.take pat.length) == pat then some (l.drop pat.length) else none

/-- Greedy `\s+`: at least one whitespace character, then all following
whitespace. -/
def matchWs1 : List Char → Option (List Char)
  | c :: rest => if goIsSpace c then some (rest.dropWhile goIsSpace) else none
  | [] => none

/-- The optional group `(?:IF\s+NOT\s+EXISTS\s+)?` of `tableNameRe`. -/
def matchIfNotExists (l : List Char) : Option (List Char) :=
  (matchCI "if".data l).bind fun l1 =>
    (matchWs1 l1).bind fun l2 =>
      (matchCI "not".data l2).bind fun l3 =>
        (matchWs1 l3).bind fun l4 =>
          (matchCI "exists".data l4).bind fun l5 => matchWs1 l5

/-- The identifier part `["'\x60]?(\w+)["'\x60]?` of `tableNameRe`:
optionally one quoting character (kept only if at least one word
character follows, as the regex engine backtracks otherwise), the
greedy identifier, then optionally one closing quote. -/
def matchIdentTail (l : List Char) : Option (List Char) :=
  match l with
  | c :: rest =>
    if (c == '"' || c == sq || c == btick) &&
        (match rest with | d :: _ => isWordChar d | [] => false) then
      some (matchCloseQuote (rest.dropWhile isWordChar))
    else if isWordChar c then
      some (matchCloseQuote (rest.dropWhile isWordChar))
    else none
  | [] => none
where
  matchCloseQuote : List Char → List Char
    | c :: rest => if c == '"' || c == sq || c == btick then rest else c :: rest
    | [] => []

/-- One attempted match of `tableNameRe`
(`(?i)(CREATE\s+TABLE\s+(?:IF\s+NOT\s+EXISTS\s+)?)["'\x60]?(\w+)["'\x60]?`)
at the head of `l`: on success, the length of capture group 1 and the
remainder after the whole match. -/
def matchCreateTable (l : List Char) : Option (Nat × List Char) :=
  (matchCI "create".data l).bind fun l1 =>
    (matchWs1 l1).bind fun l2 =>
      (matchCI "table".data l2).bind fun l3 =>
        (matchWs1 l3).bind fun l4 =>
          match matchIfNotExists l4 with
          | some l5 =>
            match matchIdentTail l5 with
            | some rest => some (l.length - l5.length, rest)
            | none =>
              match matchIdentTail l4 with
              | some rest => some (l.length - l4.length, rest)
              | none => none
          | none =>
            match matchIdentTail l4 with
            | some rest => some (l.length - l4.length, rest)
            | none => none

/-- Worker for `replaceTableName`: scan left to right, replacing every
match of `tableNameRe` by capture group 1 followed by the quoted new
name (`fmt.Sprintf("${1}%q", newName)`).  Fuel-recursive with fuel at
least the input length, which is ample because each match consumes at
least `CREATE TABLE`. -/
def replaceTableNameGo (newName : String) : Nat → List Char → List Char
  | _, [] => []
  | 0, l => l
  | fuel + 1, c :: rest =>
    match matchCreateTable (c :: rest) with
    | some (g1len, after) =>
      (c :: rest).take g1len ++ (goQuote newName).data ++ replaceTableNameGo newName fuel after
    | none => c :: replaceTableNameGo newName fuel rest

/-- `replaceTableName` from `diff.go`. -/
def replaceTableName (sql newName : String) : String :=
  String.mk (replaceTableNameGo newName sql.data.length sql.data)

/-- `commonColumns` from `diff.go`: names present in both tables, in
target order. -/
def commonColumns (ft tt : Table) : List String :=
  (tt.columns.filter (fun c => hasColumn ft c.name)).map Column.name

/-- `generateRecreateSQL` from `diff.go`: create the shadow table, copy
the common columns when there are any, drop the original, rename. -/
def generateRecreateSQL (n : String) (ft tt : Table) : List String :=
  let tempName := n ++ "__new"
  let common := commonColumns ft tt
  let cols := String.intercalate ", " common
  let createSQL := replaceTableName tt.sql tempName
  [ensureSemicolon createSQL]
    ++ (if common.isEmpty then []
        else ["INSERT INTO " ++ goQuote tempName ++ " (" ++ cols ++ ") SELECT " ++ cols ++
              " FROM " ++ goQuote n ++ ";"])
    ++ ["DROP TABLE " ++ goQuote n ++ ";",
        "ALTER TABLE " ++ goQuote tempName ++ " RENAME TO " ++ goQuote n ++ ";"]

/-- `recreateTableChange` from `diff.go`. -/
def recreateTableChange (n : String) (ft tt : Table) : Change :=
  { type := .recreateTable
    object := n
    description := "Recreate table " ++ goQuote n ++ " (schema changed)"
    sql := generateRecreateSQL n ft tt
    destructive := true }

/-- Modelled from the spec: `tableDefinitionChanged` of the current
`diff.go` compares the two `CREATE TABLE` texts under the §4.1
normalization with quote stripping (spec §4.3 rule 5); the stale
revision inlined an equivalent normalization without literal masking. -/
def tableDefinitionChanged (ft tt : Table) : Bool :=
  normalizeSQL ft.sql true != normalizeSQL tt.sql true

/-- The columns of `tt` absent from `ft` (`newCols` in
`diffTableColumns`). -/
def newColumns (ft tt : Table) : List Column :=
  tt.columns.filter (fun c => !(hasColumn ft c.name))

/-- Modelled from the spec: decision rule 3 of §4.3 in the missing
current `diff.go` (behaviour fixed by the `diff_test.go` case
`add column in middle triggers recreate`): new columns may only be
appended — the prefix of the `to` column sequence up to the first new
column must match the `from` sequence element-for-element, otherwise
the table is recreated. -/
def newColumnsAppended (ft tt : Table) : Bool :=
  match tt.columns.findIdx? (fun c => !(hasColumn ft c.name)) with
  | some k => ((tt.columns.take k).map Column.name) == (ft.columns.map Column.name)
  | none => true

/-- The `add_column` change emitted by `diffTableColumns`. -/
def addColumnChange (tableName : String) (col : Column) : Change :=
  { type := .addColumn
    object := tableName
    description := "Add column " ++ goQuote col.name ++ " to table " ++ goQuote tableName
    sql := [generateAddColumnSQL tableName col]
    destructive := false }

/-- `diffTableColumns` from `diff.go`, in the decision order of spec
§4.3: dropped column, changed column, non-appended new column
(modelled from the spec, see `newColumnsAppended`), constraint-only text
change, otherwise one `add_column` per new column in target order.  The
early returns of the Go function are rendered as an if-chain; every
recreating branch returns the same single change. -/
def diffTableColumns (ft tt : Table) : List Change :=
  if ft.columns.any (fun c => !(hasColumn tt c.name)) then
    [recreateTableChange ft.name ft tt]
  else if tt.columns.any (fun tc =>
      match getColumn ft tc.name with
      | some fc => columnChanged fc tc
      | none => false) then
    [recreateTableChange ft.name ft tt]
  else if !(newColumnsAppended ft tt) then
    [recreateTableChange ft.name ft tt]
  else if (newColumns ft tt).isEmpty && tableDefinitionChanged ft tt then
    [recreateTableChange ft.name ft tt]
  else
    (newColumns ft tt).map (fun col => addColumnChange ft.name col)

def dropTableChange (n : String) : Change :=
  { type := .dropTable
    object := n
    description := "Drop table " ++ goQuote n
    sql := ["DROP TABLE " ++ goQuote n ++ ";"]
    destructive := true }

def createTableChange (n : String) (tb : Table) : Change :=
  { type := .createTable
    object := n
    description := "Create table " ++ goQuote n
    sql := [ensureSemicolon tb.sql]
    destructive := false }

/-- `diffTables` from `diff.go`: dropped tables (first loop, over
`from`), new tables (second loop, over `to`), then the per-table column
diff for tables present in both (third loop, over `to`). -/
def diffTables (f t : Database) : List Change :=
  (f.tables.flatMap fun e =>
    if (List.lookup e.1 t.tables).isNone then [dropTableChange e.1] else [])
  ++ (t.tables.flatMap fun e =>
    if (List.lookup e.1 f.tables).isNone then [createTableChange e.1 e.2] else [])
  ++ (t.tables.flatMap fun e =>
    match List.lookup e.1 f.tables with
    | some ft => diffTableColumns ft e.2
    | none => [])

/-- The set `recreatedTables` that `diffTables` records while running:
the keys of `to` tables whose column diff produced a
`recreate_table`. -/
def recSet (f t : Database) : List String :=
  t.tables.filterMap fun e =>
    match List.lookup e.1 f.tables with
    | some ft =>
      if (diffTableColumns ft e.2).any (fun c => c.type == ChangeType.recreateTable) then
        some e.1
      else none
    | none => none

/-- Modelled from the spec: the set of dropped tables, consulted by the
dependent-object differ for the cascade of spec §8 scenario 4 and the
glossary entry `Cascade` (an index or trigger is dropped implicitly when
its owning table is dropped, so no explicit drop is emitted). -/
def droppedSet (f t : Database) : List String :=
  f.tables.filterMap fun e =>
    if (List.lookup e.1 t.tables).isNone then some e.1 else none

def dropIndexChange (n : String) : Change :=
  { type := .dropIndex
    object := n
    description := "Drop index " ++ goQuote n
    sql := ["DROP INDEX IF EXISTS " ++ goQuote n ++ ";"]
    destructive := false }

def dropIndexRecreateChange (n : String) : Change :=
  { type := .dropIndex
    object := n
    description := "Drop index " ++ goQuote n ++ " (will recreate)"
    sql := ["DROP INDEX IF EXISTS " ++ goQuote n ++ ";"]
    destructive := false }

def createIndexChange (n : String) (idx : Index) : Change :=
  { type := .createIndex
    object := n
    description := "Create index " ++ goQuote n
    sql := [ensureSemicolon idx.sql]
    destructive := false }

/-- `diffIndexes` from `diff.go`: drops of vanished indexes (skipped
when the owning table is recreated — or dropped, the latter modelled
from the spec, see `droppedSet`), then creates of new indexes,
unconditional re-creates for indexes of recreated tables, and
drop-then-create when the normalized texts differ (normalization without
quote stripping). -/
def diffIndexes (f t : Database) (rec dropped : List String) : List Change :=
  (f.indexes.flatMap fun e =>
    if rec.contains e.2.table || dropped.contains e.2.table then []
    else if (List.lookup e.1 t.indexes).isNone then [dropIndexChange e.1] else [])
  ++ (t.indexes.flatMap fun e =>
    if rec.contains e.2.table then [createIndexChange e.1 e.2]
    else
      match List.lookup e.1 f.indexes with
      | none => [createIndexChange e.1 e.2]
      | some fidx =>
        if normalizeSQL fidx.sql false != normalizeSQL e.2.sql false then
          [dropIndexRecreateChange e.1, createIndexChange e.1 e.2]
        else [])

def dropViewChange (n : String) : Change :=
  { type := .dropView
    object := n
    description := "Drop view " ++ goQuote n
    sql := ["DROP VIEW IF EXISTS " ++ goQuote n ++ ";"]
    destructive := false }

def dropViewRecreateChange (n : String) : Change :=
  { type := .dropView
    object := n
    description := "Drop view " ++ goQuote n ++ " (will recreate)"
    sql := ["DROP VIEW IF EXISTS " ++ goQuote n ++ ";"]
    destructive := false }

def createViewChange (n : String) (v : View) : Change :=
  { type := .createView
    object := n
    description := "Create view " ++ goQuote n
    sql := [ensureSemicolon v.sql]
    destructive := false }

/-- `diffViews` from `diff.go`: plain three-way diff, no cascade. -/
def diffViews (f t : Database) : List Change :=
  (f.views.flatMap fun e =>
    if (List.lookup e.1 t.views).isNone then [dropViewChange e.1] else [])
  ++ (t.views.flatMap fun e =>
    match List.lookup e.1 f.views with
    | none => [createViewChange e.1 e.2]
    | some fv =>
      if normalizeSQL fv.sql false != normalizeSQL e.2.sql false then
        [dropViewRecreateChange e.1, createViewChange e.1 e.2]
      else [])

def dropTriggerChange (n : String) : Change :=
  { type := .dropTrigger
    object := n
    description := "Drop trigger " ++ goQuote n
    sql := ["DROP TRIGGER IF EXISTS " ++ goQuote n ++ ";"]
    destructive := false }

def dropTriggerRecreateChange (n : String) : Change :=
  { type := .dropTrigger
    object := n
    description := "Drop trigger " ++ goQuote n ++ " (will recreate)"
    sql := ["DROP TRIGGER IF EXISTS " ++ goQuote n ++ ";"]
    destructive := false }

def createTriggerChange (n : String) (tr : Trigger) : Change :=
  { type := .createTrigger
    object := n
    description := "Create trigger " ++ goQuote n
    sql := [ensureSemicolon tr.sql]
    destructive := false }

/-- `diffTriggers` from `diff.go`: as `diffIndexes`, for triggers. -/
def diffTriggers (f t : Database) (rec dropped : List String) : List Change :=
  (f.triggers.flatMap fun e =>
    if rec.contains e.2.table || dropped.contains e.2.table then []
    else if (List.lookup e.1 t.triggers).isNone then [dropTriggerChange e.1] else [])
  ++ (t.triggers.flatMap fun e =>
    if rec.contains e.2.table then [createTriggerChange e.1 e.2]
    else
      match List.lookup e.1 f.triggers with
      | none => [createTriggerChange e.1 e.2]
      | some ftr =>
        if normalizeSQL ftr.sql false != normalizeSQL e.2.sql false then
          [dropTriggerRecreateChange e.1, createTriggerChange e.1 e.2]
        else [])

/-- The priority map of `sortChanges` from `diff.go`. -/
def priority : ChangeType → Nat
  | .dropTrigger => 1
  | .dropView => 2
  | .dropIndex => 3
  | .dropTable => 4
  | .recreateTable => 5
  | .createTable => 6
  | .addColumn => 7
  | .createIndex => 8
  | .createView => 9
  | .createTrigger => 10

/-- The sort key of a change: priority, then object name. -/
def chKey (c : Change) : Nat × String := (priority c.type, c.object)

/-- Strict comparison under the comparator of `sortChanges` (priority
first, then byte-wise object name). -/
def keyLtB (a b : Change) : Bool :=
  priority a.type < priority b.type ||
    (priority a.type == priority b.type && decide (a.object < b.object))

/-- Stable insertion of one change: it goes in front of the first
element not strictly below it, so elements comparing equal keep their
original relative order. -/
def insertCh (x : Change) : List Change → List Change
  | [] => [x]
  | y :: ys => if keyLtB y x then y :: insertCh x ys else x :: y :: ys

/-- `sortChanges` from `diff.go`: `slices.SortStableFunc` with the
priority-then-object comparator, modelled as a stable insertion sort —
any two stable sorts under the same total preorder agree
(`sortedFilterEq_unique` below), so the model is faithful to whatever
stable algorithm the Go runtime uses. -/
def sortChanges (l : List Change) : List Change := l.foldr insertCh []

/-- `Diff` from `diff.go`: table changes (recording recreated tables),
index, view and trigger changes, then the stable priority sort. -/
def Diff (f t : Database) : List Change :=
  let recs := recSet f t
  let dropped := droppedSet f t
  sortChanges
    (diffTables f t ++ diffIndexes f t recs dropped ++ diffViews f t
      ++ diffTriggers f t recs dropped)

/-- `HasDestructive` from `diff.go`. -/
def HasDestructive (l : List Change) : Bool := l.any (fun c => c.destructive)

/-! ## Sanity checks

The six cases of `TestNormalizeSQL` (`normalize_test.go`), evaluated on
the embedding.  Quote-bearing strings are built through `sq` so that the
source of this file stays free of stray quote characters. -/

theorem sanityNormalizeBasic :
    normalizeSQL "CREATE   TABLE  foo  ( a INT )" true = "create table foo(a int)" := by decide

theorem sanityNormalizeLiteral :
    normalizeSQL (String.mk ("SELECT ".data ++ [sq] ++ "Hello,   World".data ++ [sq])) false
      = String.mk ("select ".data ++ [sq] ++ "Hello,   World".data ++ [sq]) := by decide

theorem sanityNormalizeEscapedQuotes :
    normalizeSQL (String.mk ("SELECT ".data ++ [sq, 'O', sq, sq] ++ "Neil".data ++ [sq])) false
      = String.mk ("select ".data ++ [sq, 'O', sq, sq] ++ "Neil".data ++ [sq]) := by decide

theorem sanityNormalizeMixed :
    normalizeSQL
        (String.mk ("CREATE VIEW v AS SELECT ".data ++ [sq] ++ "foo,  bar".data ++ [sq]
          ++ " AS x, column2 FROM t".data)) false
      = String.mk ("create view v as select ".data ++ [sq] ++ "foo,  bar".data ++ [sq]
          ++ " as x, column2 from t".data) := by decide

theorem sanityNormalizeStripQuotes :
    normalizeSQL "CREATE TABLE \"MyTable\" ([id] INT)" true = "create table mytable(id int)" := by
  decide

theorem sanityNormalizeKeepQuotes :
    normalizeSQL "CREATE TABLE \"MyTable\"" false = "create table \"mytable\"" := by decide

/-! ## Claim C6: synthetic default for a NOT NULL column append -/

/-- Integer type family as the spec lists it:
INTEGER/INT/BIGINT/SMALLINT/TINYINT. -/
def isIntegerFamily (ty : String) : Bool :=
  let u := String.mk (toUpperL ty.data)
  u == "INTEGER" || u == "INT" || u == "BIGINT" || u == "SMALLINT" || u == "TINYINT"

/-- Real type family as the spec lists it: REAL/FLOAT/DOUBLE. -/
def isRealFamily (ty : String) : Bool :=
  let u := String.mk (toUpperL ty.data)
  u == "REAL" || u == "FLOAT" || u == "DOUBLE"

/-- The BLOB type, compared like the other families. -/
def isBlobType (ty : String) : Bool :=
  String.mk (toUpperL ty.data) == "BLOB"

/-- The value of `defaultForType` on each of the spec's type families. -/
theorem defaultForTypeFamilies (ty : String) :
    (isIntegerFamily ty = true → defaultForType ty = "0")
    ∧ (isRealFamily ty = true → defaultForType ty = "0.0")
    ∧ (isBlobType ty = true → defaultForType ty = String.mk ['X', sq, sq])
    ∧ (isIntegerFamily ty = false → isRealFamily ty = false →
        isBlobType ty = false → defaultForType ty = String.mk [sq, sq]) := by
  simp only [defaultForType, isIntegerFamily, isRealFamily, isBlobType]
  generalize String.mk (toUpperL ty.data) = u
  refine ⟨?_, ?_, ?_, ?_⟩
  · intro h
    rw [if_pos h]
  · intro h
    simp only [Bool.or_eq_true, beq_iff_eq] at h
    rcases h with (h | h) | h <;> subst h <;> decide
  · intro h
    simp only [beq_iff_eq] at h
    subst h
    decide
  · intro h1 h2 h3
    rw [if_neg (by simp [h1]), if_neg (by simp [h2]), if_neg (by simp [h3])]

/-- C6: for an appended column that is NOT NULL with no declared
default, the generated ALTER injects a synthetic default chosen by type
family — `0` for the integer family, `0.0` for the real family, `X''`
for BLOB and `''` for everything else — and the emitted statement
carries no NOT NULL qualifier (the equality exhibits the full statement:
table, column, type, synthesized DEFAULT, semicolon, and nothing
else). -/
theorem addColumnSyntheticDefault (tn : String) (c : Column)
    (hnn : c.notNull = true) (hnd : c.dflt = none) (hty : c.type ≠ "") :
    generateAddColumnSQL tn c =
      "ALTER TABLE " ++ goQuote tn ++ " ADD COLUMN " ++ goQuote c.name ++ " " ++ c.type ++
        " DEFAULT " ++ defaultForType c.type ++ ";"
    ∧ (isIntegerFamily c.type = true → defaultForType c.type = "0")
    ∧ (isRealFamily c.type = true → defaultForType c.type = "0.0")
    ∧ (isBlobType c.type = true → defaultForType c.type = String.mk ['X', sq, sq])
    ∧ (isIntegerFamily c.type = false → isRealFamily c.type = false →
        isBlobType c.type = false → defaultForType c.type = String.mk [sq, sq]) := by
  refine ⟨?_, defaultForTypeFamilies c.type⟩
  simp [generateAddColumnSQL, hnn, hnd, bne_iff_ne, hty, String.append_assoc]

/-- Witness for C6 at the spec's concrete scenario 5 (`status TEXT NOT
NULL` appended with no default). -/
theorem addColumnSyntheticDefaultWitness :
    ("TEXT" : String) ≠ "" ∧
      generateAddColumnSQL "t" (Column.mk "status" "TEXT" true none 0) =
        "ALTER TABLE " ++ goQuote "t" ++ " ADD COLUMN " ++ goQuote "status" ++ " TEXT" ++
          " DEFAULT " ++ defaultForType "TEXT" ++ ";" :=
  ⟨by decide, (addColumnSyntheticDefault "t" (Column.mk "status" "TEXT" true none 0)
    rfl rfl (by decide)).1⟩

/-! ## Claim C7: the column comparator

The claim fails on one edge: the comparator maps an absent default and a
present default to the same sentinel (the empty string) whenever the
present one trims to nothing, so "one absent with one present" is then
not reported as a change.  `columnChangedBlankDefaultCex` exhibits this;
`columnChangedIff` is the claim amended by exactly that proviso. -/

/-- Counterexample to C7 as stated: the right column's default is
present (a single space) while the left one's is absent, yet the
comparator reports no change. -/
theorem columnChangedBlankDefaultCex :
    (Column.mk "c" "TEXT" false none 0).dflt = none
      ∧ (Column.mk "c" "TEXT" false (some " ") 0).dflt.isSome = true
      ∧ columnChanged (Column.mk "c" "TEXT" false none 0)
          (Column.mk "c" "TEXT" false (some " ") 0) = false := by decide

/-- C7 (amended): the comparator reports a change exactly when the
lowercased types differ, the NOT NULL flags differ, primary-key
membership (ordinal 0 versus positive) differs, or the defaults differ
after trim-and-lowercase — where two absent defaults are equal, and an
absent default compares equal to a present one exactly when the present
one normalizes to the empty string. -/
theorem columnChangedIff (cf ct : Column) :
    columnChanged cf ct = true ↔
      (String.mk (toLowerL cf.type.data) ≠ String.mk (toLowerL ct.type.data)
        ∨ cf.notNull ≠ ct.notNull
        ∨ ¬ ((0 < cf.primaryKey) ↔ (0 < ct.primaryKey))
        ∨ (match cf.dflt, ct.dflt with
           | none, none => False
           | some a, some b => normalizeDefault a ≠ normalizeDefault b
           | some a, none => normalizeDefault a ≠ ""
           | none, some b => normalizeDefault b ≠ "")) := by
  obtain ⟨fn, fty, fnn, fd, fpk⟩ := cf
  obtain ⟨tn2, tty, tnn, td, tpk⟩ := ct
  simp only [columnChanged, goEqualFold]
  split_ifs with h1 h2 h3
  · simp only [Bool.not_eq_true', beq_eq_false_iff_ne] at h1
    simp only [true_iff]
    left
    intro hcon
    exact h1 (by injection hcon)
  · simp only [bne_iff_ne] at h2
    simp only [true_iff]
    right; left
    exact h2
  · simp only [true_iff]
    right; right; left
    simp only [bne_iff_ne, ne_eq, decide_eq_decide] at h3
    exact h3
  · simp only [Bool.not_eq_true', beq_eq_false_iff_ne, not_not] at h1
    simp only [bne_iff_ne, ne_eq, not_not] at h2 h3
    simp only [decide_eq_decide] at h3
    replace h1 : (toLowerL fty.data == toLowerL tty.data) = true := by
      simpa using h1
    simp only [beq_iff_eq] at h1
    constructor
    · intro h
      simp only [bne_iff_ne, ne_eq] at h
      right; right; right
      cases fd <;> cases td <;> simp only at h ⊢
      · exact h trivial
      · exact fun hc => h hc.symm
      · exact h
      · exact h
    · intro h
      rcases h with h | h | h | h
      · exact absurd (congrArg String.mk h1) h
      · exact absurd h2 h
      · exact absurd h3 h
      · cases fd <;> cases td <;> simp only at h ⊢
        · simp only [bne_iff_ne]
          exact fun hc => h hc.symm
        · simp only [bne_iff_ne]
          exact h
        · simp only [bne_iff_ne]
          exact h

/-! ## Claims C8 and C9: the normalizer's placeholder collision

`normalize.go` masks each string literal with the text
` __str_protect_i__ ` and restores it afterwards by replacing the first
occurrence of `__str_protect_i__`.  When the input itself contains such
placeholder text inside an earlier literal, the restoration replaces the
wrong occurrence: bytes inside a literal are rewritten (against C8 and
the code's own comment that the placeholder is unique and protects the
literal), and a second normalization then changes the result again
(against C9). -/

/-- The C8 failing input: `'x__str_protect_1__y' 'B'` (a literal whose
content contains the text of placeholder 1, followed by the literal
`'B'`). -/
def collisionInput : String :=
  String.mk ([sq] ++ "x__str_protect_1__y".data ++ [sq, ' ', sq, 'B', sq])

/-- C8 is violated: on `collisionInput` the masking pass does treat
`'x__str_protect_1__y'` as a string literal (first conjunct), yet its
bytes do not survive normalization — the output is
`'x'B'y' __str_protect_1__`, in which the literal's content no longer
occurs at all (last conjunct). -/
theorem normalizeDestroysLiteralBytes :
    (extractLits collisionInput.data 0).2
        = [[sq] ++ "x__str_protect_1__y".data ++ [sq], [sq, 'B', sq]]
      ∧ normalizeSQL collisionInput false
        = String.mk ([sq, 'x', sq, 'B', sq, 'y', sq] ++ " __str_protect_1__".data)
      ∧ containsL ("x__str_protect_1__y".data) (normalizeSQL collisionInput false).data
        = false := by decide

/-- The C9 failing input: `'__str_protect_1__' 'B'`. -/
def idemInput : String :=
  String.mk ([sq] ++ "__str_protect_1__".data ++ [sq, ' ', sq, 'B', sq])

/-- C9 is violated: normalizing `idemInput` once yields
`''B'' __str_protect_1__`, normalizing twice yields
`'' b '' __str_protect_1__` — the normalizer is not idempotent (and the
second pass even lowercases bytes that were inside a literal of the
first pass's output). -/
theorem normalizeNotIdempotent :
    normalizeSQL idemInput false
        = String.mk ([sq, sq, 'B', sq, sq] ++ " __str_protect_1__".data)
      ∧ normalizeSQL (normalizeSQL idemInput false) false
        = String.mk ([sq, sq, ' ', 'b', ' ', sq, sq] ++ " __str_protect_1__".data)
      ∧ normalizeSQL (normalizeSQL idemInput false) false ≠ normalizeSQL idemInput false := by
  decide

/-! ## Order on sort keys and stability of `sortChanges` -/

/-- The non-strict order on sort keys: priority first, object name
second. -/
def keyLe (x y : Nat × String) : Prop :=
  x.1 < y.1 ∨ (x.1 = y.1 ∧ x.2 ≤ y.2)

/-- The strict order on sort keys. -/
def keyLt (x y : Nat × String) : Prop :=
  x.1 < y.1 ∨ (x.1 = y.1 ∧ x.2 < y.2)

theorem keyLtB_iff (a b : Change) : keyLtB a b = true ↔ keyLt (chKey a) (chKey b) := by
  simp [keyLtB, keyLt, chKey]

theorem keyLe_of_keyLt {x y : Nat × String} (h : keyLt x y) : keyLe x y := by
  rcases h with h | ⟨h1, h2⟩
  · exact Or.inl h
  · exact Or.inr ⟨h1, le_of_lt h2⟩

theorem keyLe_refl (x : Nat × String) : keyLe x x := Or.inr ⟨rfl, le_refl _⟩

theorem keyLe_of_not_keyLt {x y : Nat × String} (h : ¬ keyLt x y) : keyLe y x := by
  unfold keyLt at h
  push_neg at h
  obtain ⟨h1, h2⟩ := h
  rcases Nat.lt_trichotomy y.1 x.1 with hlt | heq | hgt
  · exact Or.inl hlt
  · exact Or.inr ⟨heq, h2 heq.symm⟩
  · exact absurd hgt (not_lt.mpr h1)

theorem keyLt_irrefl (x : Nat × String) : ¬ keyLt x x := by
  intro h
  rcases h with h | ⟨_, h⟩ <;> exact lt_irrefl _ h

theorem keyLe_trans {x y z : Nat × String} (h1 : keyLe x y) (h2 : keyLe y z) : keyLe x z := by
  rcases h1 with h1 | ⟨h1a, h1b⟩ <;> rcases h2 with h2 | ⟨h2a, h2b⟩
  · exact Or.inl (lt_trans h1 h2)
  · exact Or.inl (h2a ▸ h1)
  · exact Or.inl (h1a ▸ h2)
  · exact Or.inr ⟨h1a.trans h2a, le_trans h1b h2b⟩

theorem keyLe_antisymm {x y : Nat × String} (h1 : keyLe x y) (h2 : keyLe y x) : x = y := by
  rcases h1 with h1 | ⟨h1a, h1b⟩ <;> rcases h2 with h2 | ⟨h2a, h2b⟩
  · exact absurd (lt_trans h1 h2) (lt_irrefl _)
  · exact absurd h1 (h2a ▸ lt_irrefl _)
  · exact absurd h2 (h1a ▸ lt_irrefl _)
  · exact Prod.ext h1a (le_antisymm h1b h2b)

theorem mem_insertCh {a x : Change} : ∀ {l : List Change}, a ∈ insertCh x l ↔ a = x ∨ a ∈ l := by
  intro l
  induction l with
  | nil => simp [insertCh]
  | cons y ys ih =>
    unfold insertCh
    split_ifs with h
    · simp only [List.mem_cons, ih]
      tauto
    · simp only [List.mem_cons]
      try tauto

theorem pairwise_insertCh (x : Change) :
    ∀ {l : List Change}, l.Pairwise (fun a b => keyLe (chKey a) (chKey b)) →
      (insertCh x l).Pairwise (fun a b => keyLe (chKey a) (chKey b)) := by
  intro l
  induction l with
  | nil => intro _; simp [insertCh]
  | cons y ys ih =>
    intro h
    rw [List.pairwise_cons] at h
    obtain ⟨hy, hys⟩ := h
    unfold insertCh
    split_ifs with hlt
    · rw [List.pairwise_cons]
      refine ⟨?_, ih hys⟩
      intro z hz
      rcases mem_insertCh.mp hz with rfl | hz
      · exact keyLe_of_keyLt ((keyLtB_iff y z).mp hlt)
      · exact hy z hz
    · have hxy : keyLe (chKey x) (chKey y) :=
        keyLe_of_not_keyLt (fun hc => hlt ((keyLtB_iff y x).mpr hc))
      rw [List.pairwise_cons]
      refine ⟨?_, List.Pairwise.cons hy hys⟩
      intro z hz
      rcases List.mem_cons.mp hz with rfl | hz
      · exact hxy
      · exact keyLe_trans hxy (hy z hz)

/-- The output of `sortChanges` is sorted by priority, with ties ordered
by object name. -/
theorem sortChanges_pairwise (l : List Change) :
    (sortChanges l).Pairwise (fun a b => keyLe (chKey a) (chKey b)) := by
  unfold sortChanges
  induction l with
  | nil => simp
  | cons x xs ih => exact pairwise_insertCh x ih

/-- The changes with a given sort key, in order. -/
def filterKey (κ : Nat × String) (l : List Change) : List Change :=
  l.filter (fun c => decide (chKey c = κ))

theorem filterKey_cons (κ : Nat × String) (x : Change) (l : List Change) :
    filterKey κ (x :: l) =
      if chKey x = κ then x :: filterKey κ l else filterKey κ l := by
  unfold filterKey
  rw [List.filter_cons]
  simp only [decide_eq_true_eq]

theorem filterKey_insertCh (κ : Nat × String) (x : Change) :
    ∀ (l : List Change),
      filterKey κ (insertCh x l) =
        if chKey x = κ then x :: filterKey κ l else filterKey κ l := by
  intro l
  induction l with
  | nil =>
    simp only [insertCh]
    exact filterKey_cons κ x []
  | cons y ys ih =>
    unfold insertCh
    by_cases hlt : keyLtB y x = true
    · rw [if_pos hlt]
      have hkeylt := (keyLtB_iff y x).mp hlt
      by_cases hx : chKey x = κ
      · have hy : chKey y ≠ κ := by
          intro hy
          rw [hy, hx] at hkeylt
          exact keyLt_irrefl κ hkeylt
        simp only [filterKey_cons, ih, if_pos hx, if_neg hy]
      · simp only [filterKey_cons, ih, if_neg hx]
    · rw [if_neg hlt]
      exact filterKey_cons κ x (y :: ys)

/-- Stability of `sortChanges`: for every key, the sorted list carries
exactly the input's changes of that key, in the input's order. -/
theorem sortChanges_filterKey (l : List Change) (κ : Nat × String) :
    filterKey κ (sortChanges l) = filterKey κ l := by
  unfold sortChanges
  induction l with
  | nil => rfl
  | cons x xs ih =>
    simp only [List.foldr_cons]
    rw [filterKey_insertCh, filterKey_cons, ih]

/-- A list sorted under `keyLe` is determined by its per-key filters:
two sorted lists with the same filters are equal.  Together with
`sortChanges_filterKey` this says any two stable sorts under the
priority-then-object comparator agree, so the insertion-sort model is
faithful to Go's `slices.SortStableFunc`. -/
theorem sortedFilterEq_unique :
    ∀ (l₁ l₂ : List Change),
      l₁.Pairwise (fun a b => keyLe (chKey a) (chKey b)) →
      l₂.Pairwise (fun a b => keyLe (chKey a) (chKey b)) →
      (∀ κ, filterKey κ l₁ = filterKey κ l₂) → l₁ = l₂ := by
  intro l₁
  induction l₁ with
  | nil =>
    intro l₂ _ _ hf
    cases l₂ with
    | nil => rfl
    | cons b t₂ =>
      have := hf (chKey b)
      rw [filterKey_cons, if_pos rfl] at this
      simp [filterKey] at this
  | cons a t₁ ih =>
    intro l₂ h₁ h₂ hf
    cases l₂ with
    | nil =>
      have := hf (chKey a)
      rw [filterKey_cons, if_pos rfl] at this
      simp [filterKey] at this
    | cons b t₂ =>
      rw [List.pairwise_cons] at h₁ h₂
      obtain ⟨ha, ht₁⟩ := h₁
      obtain ⟨hb, ht₂⟩ := h₂
      have hba : keyLe (chKey b) (chKey a) := by
        have h := hf (chKey a)
        rw [filterKey_cons, if_pos rfl] at h
        have hmem : a ∈ filterKey (chKey a) (b :: t₂) := by
          rw [← h]
          exact List.mem_cons_self _ _
        obtain ⟨hm, _⟩ := List.mem_filter.mp hmem
        rcases List.mem_cons.mp hm with heq | hm
        · rw [heq]
          exact keyLe_refl _
        · exact hb a hm
      have hab : keyLe (chKey a) (chKey b) := by
        have h := hf (chKey b)
        rw [filterKey_cons (chKey b) b t₂, if_pos rfl] at h
        have hmem : b ∈ filterKey (chKey b) (a :: t₁) := by
          rw [h]
          exact List.mem_cons_self _ _
        obtain ⟨hm, _⟩ := List.mem_filter.mp hmem
        rcases List.mem_cons.mp hm with heq | hm
        · rw [heq]
          exact keyLe_refl _
        · exact ha b hm
      have hkey : chKey a = chKey b := keyLe_antisymm hab hba
      have hhead := hf (chKey a)
      rw [filterKey_cons, if_pos rfl, filterKey_cons, if_pos hkey.symm] at hhead
      have hab2 : a = b := by injection hhead
      have htail : ∀ κ, filterKey κ t₁ = filterKey κ t₂ := by
        intro κ
        by_cases hκ : chKey a = κ
        · injection hhead with _ h
          subst hκ
          exact h
        · have h := hf κ
          rw [filterKey_cons, if_neg hκ, filterKey_cons, if_neg (hkey ▸ hκ)] at h
          exact h
      rw [hab2, ih t₂ ht₁ ht₂ htail]

/-! ## Claim C2: the plan is sorted by execution priority -/

/-- C2: every plan `Diff` returns is pairwise sorted by the priority
function (drop_trigger 1 … create_trigger 10) with ties ordered
lexicographically by object name (first conjunct); the sort is stable —
for every key the sorted plan lists exactly the pre-sort changes of
that key in their original order (second conjunct); and consequently
every change with priority ≤ 5 precedes every change with priority ≥ 6
(third conjunct). -/
theorem diffSortedByPriority (f t : Database) :
    (Diff f t).Pairwise (fun a b => keyLe (chKey a) (chKey b))
    ∧ (∀ (l : List Change) (κ : Nat × String), filterKey κ (sortChanges l) = filterKey κ l)
    ∧ ∀ i j (hi : i < (Diff f t).length) (hj : j < (Diff f t).length),
        priority ((Diff f t).get ⟨i, hi⟩).type ≤ 5 →
        6 ≤ priority ((Diff f t).get ⟨j, hj⟩).type → i < j := by
  refine ⟨sortChanges_pairwise _, sortChanges_filterKey, ?_⟩
  intro i j hi hj hpi hpj
  by_contra hcon
  push_neg at hcon
  rcases Nat.lt_or_ge j i with hji | hij
  · have hpwall : (Diff f t).Pairwise (fun a b => keyLe (chKey a) (chKey b)) :=
      sortChanges_pairwise _
    have hpw := (List.pairwise_iff_get.mp hpwall) ⟨j, hj⟩ ⟨i, hi⟩ hji
    rcases hpw with h | ⟨h, _⟩
    · simp only [chKey] at h
      omega
    · simp only [chKey] at h
      omega
  · have hij2 : i = j := le_antisymm hij hcon
    subst hij2
    have hsame : (Diff f t).get ⟨i, hi⟩ = (Diff f t).get ⟨i, hj⟩ := rfl
    rw [hsame] at hpi
    omega

/-- Witness for C2's precedence part: a snapshot pair whose plan carries
a priority-1 change (drop trigger) and a priority-6 change (create
table). -/
theorem diffSortedByPriorityWitness :
    priority ((Diff
        (Database.mk [] [] [] [("trg", Trigger.mk "trg" "u" "CREATE TRIGGER trg AFTER INSERT ON u BEGIN SELECT 1; END")])
        (Database.mk [("u2", Table.mk "u2" [] "CREATE TABLE u2 (id INTEGER)")] [] [] [])).get
        ⟨0, by decide⟩).type ≤ 5
    ∧ 6 ≤ priority ((Diff
        (Database.mk [] [] [] [("trg", Trigger.mk "trg" "u" "CREATE TRIGGER trg AFTER INSERT ON u BEGIN SELECT 1; END")])
        (Database.mk [("u2", Table.mk "u2" [] "CREATE TABLE u2 (id INTEGER)")] [] [] [])).get
        ⟨1, by decide⟩).type
    ∧ 0 < 1 :=
  ⟨by decide, by decide,
    (diffSortedByPriority
      (Database.mk [] [] [] [("trg", Trigger.mk "trg" "u" "CREATE TRIGGER trg AFTER INSERT ON u BEGIN SELECT 1; END")])
      (Database.mk [("u2", Table.mk "u2" [] "CREATE TABLE u2 (id INTEGER)")] [] [] [])).2.2
      0 1 (by decide) (by decide) (by decide) (by decide)⟩

/-! ## Membership and lookup helpers -/

theorem mem_sortChanges {a : Change} : ∀ {l : List Change}, a ∈ sortChanges l ↔ a ∈ l := by
  intro l
  unfold sortChanges
  induction l with
  | nil => simp
  | cons x xs ih =>
    simp only [List.foldr_cons, mem_insertCh, ih, List.mem_cons]

/-- A duplicate-free association list looks up each of its own entries. -/
theorem lookup_self {β : Type} (l : List (String × β)) (hnd : (l.map Prod.fst).Nodup)
    (e : String × β) (he : e ∈ l) : List.lookup e.1 l = some e.2 := by
  induction l with
  | nil => simp at he
  | cons x xs ih =>
    rw [List.map_cons, List.nodup_cons] at hnd
    rcases List.mem_cons.mp he with rfl | hm
    · rw [List.lookup_cons]
      simp
    · rw [List.lookup_cons]
      have hne : ¬ (e.1 == x.1) = true := by
        simp only [beq_iff_eq]
        intro hcon
        exact hnd.1 (hcon ▸ List.mem_map_of_mem Prod.fst hm)
      simp only [hne]
      exact ih hnd.2 hm

/-! ## Claim C4: the destructive flag and `HasDestructive` -/

theorem destructiveOk_diffTableColumns {c : Change} {ft tt : Table}
    (hc : c ∈ diffTableColumns ft tt) :
    (c.destructive = true ↔ c.type = ChangeType.dropTable ∨ c.type = ChangeType.recreateTable) := by
  unfold diffTableColumns at hc
  split_ifs at hc
  · simp at hc
    subst hc
    simp [recreateTableChange]
  · simp at hc
    subst hc
    simp [recreateTableChange]
  · simp at hc
    subst hc
    simp [recreateTableChange]
  · simp at hc
    subst hc
    simp [recreateTableChange]
  · simp only [List.mem_map] at hc
    obtain ⟨col, _, rfl⟩ := hc
    simp [addColumnChange]

theorem destructiveOk_diffTables {c : Change} {f t : Database} (hc : c ∈ diffTables f t) :
    (c.destructive = true ↔ c.type = ChangeType.dropTable ∨ c.type = ChangeType.recreateTable) := by
  unfold diffTables at hc
  simp only [List.mem_append, List.mem_flatMap] at hc
  rcases hc with (⟨e, _, he⟩ | ⟨e, _, he⟩) | ⟨e, _, he⟩
  · split_ifs at he
    · simp at he
      subst he
      simp [dropTableChange]
    · simp at he
  · split_ifs at he
    · simp at he
      subst he
      simp [createTableChange]
    · simp at he
  · cases hl : List.lookup e.1 f.tables with
    | none => rw [hl] at he; simp at he
    | some ft => rw [hl] at he; exact destructiveOk_diffTableColumns he

theorem destructiveOk_diffIndexes {c : Change} {f t : Database} {recs dropped : List String}
    (hc : c ∈ diffIndexes f t recs dropped) :
    (c.destructive = true ↔ c.type = ChangeType.dropTable ∨ c.type = ChangeType.recreateTable) := by
  unfold diffIndexes at hc
  simp only [List.mem_append, List.mem_flatMap] at hc
  rcases hc with ⟨e, _, he⟩ | ⟨e, _, he⟩
  · split_ifs at he <;> simp at he
    all_goals (subst he; simp [dropIndexChange])
  · split_ifs at he with h1
    · simp at he
      subst he
      simp [createIndexChange]
    · cases hl : List.lookup e.1 f.indexes with
      | none =>
        rw [hl] at he
        simp at he
        subst he
        simp [createIndexChange]
      | some fidx =>
        simp only [hl] at he
        split_ifs at he
        · rcases List.mem_cons.mp he with rfl | he
          · simp [dropIndexRecreateChange]
          · simp at he
            subst he
            simp [createIndexChange]
        · simp at he

theorem destructiveOk_diffViews {c : Change} {f t : Database} (hc : c ∈ diffViews f t) :
    (c.destructive = true ↔ c.type = ChangeType.dropTable ∨ c.type = ChangeType.recreateTable) := by
  unfold diffViews at hc
  simp only [List.mem_append, List.mem_flatMap] at hc
  rcases hc with ⟨e, _, he⟩ | ⟨e, _, he⟩
  · split_ifs at he <;> simp at he
    subst he
    simp [dropViewChange]
  · cases hl : List.lookup e.1 f.views with
    | none =>
      rw [hl] at he
      simp at he
      subst he
      simp [createViewChange]
    | some fv =>
      simp only [hl] at he
      split_ifs at he
      · rcases List.mem_cons.mp he with rfl | he
        · simp [dropViewRecreateChange]
        · simp at he
          subst he
          simp [createViewChange]
      · simp at he

theorem destructiveOk_diffTriggers {c : Change} {f t : Database} {recs dropped : List String}
    (hc : c ∈ diffTriggers f t recs dropped) :
    (c.destructive = true ↔ c.type = ChangeType.dropTable ∨ c.type = ChangeType.recreateTable) := by
  unfold diffTriggers at hc
  simp only [List.mem_append, List.mem_flatMap] at hc
  rcases hc with ⟨e, _, he⟩ | ⟨e, _, he⟩
  · split_ifs at he <;> simp at he
    all_goals (subst he; simp [dropTriggerChange])
  · split_ifs at he with h1
    · simp at he
      subst he
      simp [createTriggerChange]
    · cases hl : List.lookup e.1 f.triggers with
      | none =>
        rw [hl] at he
        simp at he
        subst he
        simp [createTriggerChange]
      | some ftr =>
        simp only [hl] at he
        split_ifs at he
        · rcases List.mem_cons.mp he with rfl | he
          · simp [dropTriggerRecreateChange]
          · simp at he
            subst he
            simp [createTriggerChange]
        · simp at he

/-- C4: in every plan `Diff` returns, a change is destructive exactly
when it is a `drop_table` or a `recreate_table` (all other kinds are
never destructive), and `HasDestructive` holds of a change list exactly
when some change in it is destructive. -/
theorem destructiveFlagCharacterization (f t : Database) :
    (∀ c ∈ Diff f t,
      (c.destructive = true ↔ c.type = ChangeType.dropTable ∨ c.type = ChangeType.recreateTable))
    ∧ ∀ l : List Change, HasDestructive l = true ↔ ∃ c ∈ l, c.destructive = true := by
  constructor
  · intro c hc
    have hc2 : c ∈ diffTables f t ++ diffIndexes f t (recSet f t) (droppedSet f t)
        ++ diffViews f t ++ diffTriggers f t (recSet f t) (droppedSet f t) :=
      mem_sortChanges.mp hc
    simp only [List.mem_append] at hc2
    rcases hc2 with ((hc2 | hc2) | hc2) | hc2
    · exact destructiveOk_diffTables hc2
    · exact destructiveOk_diffIndexes hc2
    · exact destructiveOk_diffViews hc2
    · exact destructiveOk_diffTriggers hc2
  · intro l
    simp [HasDestructive, List.any_eq_true]

/-- Witness for C4 on a concrete plan: dropping table `p` yields a
destructive `drop_table` change. -/
theorem destructiveFlagCharacterizationWitness :
    dropTableChange "p" ∈
        Diff (Database.mk [("p", Table.mk "p" [] "CREATE TABLE p (id INTEGER)")] [] [] [])
          (Database.mk [] [] [] [])
      ∧ ((dropTableChange "p").destructive = true ↔
          (dropTableChange "p").type = ChangeType.dropTable
            ∨ (dropTableChange "p").type = ChangeType.recreateTable) :=
  ⟨by decide,
    (destructiveFlagCharacterization
      (Database.mk [("p", Table.mk "p" [] "CREATE TABLE p (id INTEGER)")] [] [] [])
      (Database.mk [] [] [] [])).1 (dropTableChange "p") (by decide)⟩

/-! ## Claim C5: `Diff s s = []` -/

theorem hasColumn_self {t : Table} {c : Column} (hc : c ∈ t.columns) :
    hasColumn t c.name = true :=
  List.any_eq_true.mpr ⟨c, hc, by simp⟩

theorem find?_self_of_nodup :
    ∀ (cols : List Column), (cols.map Column.name).Nodup →
      ∀ {c : Column}, c ∈ cols → cols.find? (fun x => x.name == c.name) = some c := by
  intro cols
  induction cols with
  | nil => intro _ c hc; simp at hc
  | cons x xs ih =>
    intro hnd c hc
    rw [List.map_cons, List.nodup_cons] at hnd
    rcases List.mem_cons.mp hc with rfl | hm
    · simp
    · rw [List.find?_cons]
      have hne : ¬ (x.name == c.name) = true := by
        simp only [beq_iff_eq]
        intro hcon
        exact hnd.1 (hcon ▸ List.mem_map_of_mem Column.name hm)
      simp only [hne]
      exact ih hnd.2 hm

/-- With distinct column names, looking a column of the table up by its
own name returns that column. -/
theorem getColumn_self {t : Table} (hnd : (t.columns.map Column.name).Nodup)
    {c : Column} (hc : c ∈ t.columns) : getColumn t c.name = some c := by
  unfold getColumn
  exact find?_self_of_nodup t.columns hnd hc

theorem columnChanged_self (c : Column) : columnChanged c c = false := by
  simp [columnChanged, goEqualFold]

theorem diffTableColumns_self (t : Table) (hnd : (t.columns.map Column.name).Nodup) :
    diffTableColumns t t = [] := by
  have hnew : newColumns t t = [] := by
    unfold newColumns
    rw [List.filter_eq_nil_iff]
    intro c hc
    simp [hasColumn_self hc]
  unfold diffTableColumns
  rw [if_neg, if_neg, if_neg, if_neg]
  · rw [hnew]
    simp
  · rw [hnew]
    simp [tableDefinitionChanged]
  · have happ : newColumnsAppended t t = true := by
      unfold newColumnsAppended
      have : t.columns.findIdx? (fun c => !(hasColumn t c.name)) = none := by
        rw [List.findIdx?_eq_none_iff]
        intro c hc
        simp [hasColumn_self hc]
      rw [this]
    simp [happ]
  · simp only [List.any_eq_true, not_exists]
    intro c
    simp only [not_and]
    intro hc
    rw [getColumn_self hnd hc]
    simp [columnChanged_self]
  · simp only [List.any_eq_true, not_exists]
    intro c
    simp only [not_and]
    intro hc
    simp [hasColumn_self hc]

/-- C5: on any well-formed snapshot, diffing it against itself yields
the empty plan. -/
theorem diffSelfEmpty (s : Database) (h : wellFormed s) : Diff s s = [] := by
  obtain ⟨hndT, hndI, hndV, hndR, _, hcols⟩ := h
  have htab : diffTables s s = [] := by
    unfold diffTables
    simp only [List.append_eq_nil]
    refine ⟨⟨?_, ?_⟩, ?_⟩ <;> rw [List.flatMap_eq_nil_iff] <;> intro e he
    · rw [lookup_self s.tables hndT e he]
      simp
    · rw [lookup_self s.tables hndT e he]
      simp
    · rw [lookup_self s.tables hndT e he]
      exact diffTableColumns_self e.2 (hcols e he)
  have hrec : recSet s s = [] := by
    unfold recSet
    rw [List.filterMap_eq_nil_iff]
    intro e he
    rw [lookup_self s.tables hndT e he]
    simp [diffTableColumns_self e.2 (hcols e he)]
  have hdrop : droppedSet s s = [] := by
    unfold droppedSet
    rw [List.filterMap_eq_nil_iff]
    intro e he
    rw [lookup_self s.tables hndT e he]
    simp
  have hidx : diffIndexes s s (recSet s s) (droppedSet s s) = [] := by
    rw [hrec, hdrop]
    unfold diffIndexes
    simp only [List.append_eq_nil]
    constructor <;> rw [List.flatMap_eq_nil_iff] <;> intro e he
    · rw [lookup_self s.indexes hndI e he]
      simp
    · rw [lookup_self s.indexes hndI e he]
      simp
  have hv : diffViews s s = [] := by
    unfold diffViews
    simp only [List.append_eq_nil]
    constructor <;> rw [List.flatMap_eq_nil_iff] <;> intro e he
    · rw [lookup_self s.views hndV e he]
      simp
    · rw [lookup_self s.views hndV e he]
      simp
  have htr : diffTriggers s s (recSet s s) (droppedSet s s) = [] := by
    rw [hrec, hdrop]
    unfold diffTriggers
    simp only [List.append_eq_nil]
    constructor <;> rw [List.flatMap_eq_nil_iff] <;> intro e he
    · rw [lookup_self s.triggers hndR e he]
      simp
    · rw [lookup_self s.triggers hndR e he]
      simp
  show sortChanges _ = []
  rw [htab, hidx, hv, htr]
  rfl

/-- Witness for C5 on a concrete snapshot carrying one object of every
kind. -/
theorem diffSelfEmptyWitness :
    wellFormed (Database.mk
        [("users", Table.mk "users" [Column.mk "id" "INTEGER" false none 1] "CREATE TABLE users (id INTEGER PRIMARY KEY)")]
        [("idx", Index.mk "idx" "users" "CREATE INDEX idx ON users(id)")]
        [("v", View.mk "v" "CREATE VIEW v AS SELECT id FROM users")]
        [("trg", Trigger.mk "trg" "users" "CREATE TRIGGER trg AFTER INSERT ON users BEGIN SELECT 1; END")])
    ∧ Diff
        (Database.mk
          [("users", Table.mk "users" [Column.mk "id" "INTEGER" false none 1] "CREATE TABLE users (id INTEGER PRIMARY KEY)")]
          [("idx", Index.mk "idx" "users" "CREATE INDEX idx ON users(id)")]
          [("v", View.mk "v" "CREATE VIEW v AS SELECT id FROM users")]
          [("trg", Trigger.mk "trg" "users" "CREATE TRIGGER trg AFTER INSERT ON users BEGIN SELECT 1; END")])
        (Database.mk
          [("users", Table.mk "users" [Column.mk "id" "INTEGER" false none 1] "CREATE TABLE users (id INTEGER PRIMARY KEY)")]
          [("idx", Index.mk "idx" "users" "CREATE INDEX idx ON users(id)")]
          [("v", View.mk "v" "CREATE VIEW v AS SELECT id FROM users")]
          [("trg", Trigger.mk "trg" "users" "CREATE TRIGGER trg AFTER INSERT ON users BEGIN SELECT 1; END")])
      = [] :=
  ⟨by decide,
    diffSelfEmpty
      (Database.mk
        [("users", Table.mk "users" [Column.mk "id" "INTEGER" false none 1] "CREATE TABLE users (id INTEGER PRIMARY KEY)")]
        [("idx", Index.mk "idx" "users" "CREATE INDEX idx ON users(id)")]
        [("v", View.mk "v" "CREATE VIEW v AS SELECT id FROM users")]
        [("trg", Trigger.mk "trg" "users" "CREATE TRIGGER trg AFTER INSERT ON users BEGIN SELECT 1; END")])
      (by decide)⟩

/-! ## Localizing a sort key to one map entry

Every change a differ block emits carries the map key of the entry that
produced it as its `object`; on duplicate-free keys the per-key filter
of a block therefore only sees one entry, reachable by `List.lookup`.
These lemmas reduce `filterKey κ` of each block to an expression in
lookups, which drives the counting claims (C1, C3) and the
map-iteration-order independence claim (C10). -/

theorem filterKey_append (κ : Nat × String) (l₁ l₂ : List Change) :
    filterKey κ (l₁ ++ l₂) = filterKey κ l₁ ++ filterKey κ l₂ :=
  List.filter_append l₁ l₂

theorem filterKey_eq_nil_of_obj {κ : Nat × String} {cs : List Change}
    (h : ∀ c ∈ cs, c.object ≠ κ.2) : filterKey κ cs = [] := by
  rw [filterKey, List.filter_eq_nil_iff]
  intro c hc
  simp only [decide_eq_true_eq]
  intro hk
  exact h c hc (by rw [← hk]; rfl)

theorem filterKey_eq_nil_of_priority {κ : Nat × String} {cs : List Change}
    (h : ∀ c ∈ cs, priority c.type ≠ κ.1) : filterKey κ cs = [] := by
  rw [filterKey, List.filter_eq_nil_iff]
  intro c hc
  simp only [decide_eq_true_eq]
  intro hk
  exact h c hc (by rw [← hk]; rfl)

/-- On duplicate-free keys, the per-key filter of a block whose changes
carry their entry's key as object is decided by one lookup. -/
theorem filterKey_flatMap_assoc {β : Type} (κ : Nat × String) :
    ∀ (l : List (String × β)), (l.map Prod.fst).Nodup →
      ∀ (g : (String × β) → List Change),
        (∀ e ∈ l, ∀ c ∈ g e, c.object = e.1) →
        filterKey κ (l.flatMap g) =
          (match List.lookup κ.2 l with
           | some v => filterKey κ (g (κ.2, v))
           | none => []) := by
  intro l
  induction l with
  | nil =>
    intro _ g _
    simp [filterKey]
  | cons x xs ih =>
    intro hnd g hobj
    obtain ⟨k, v⟩ := x
    rw [List.map_cons, List.nodup_cons] at hnd
    rw [List.flatMap_cons, filterKey_append]
    by_cases hk : k = κ.2
    · subst hk
      have hxs : filterKey κ (xs.flatMap g) = [] := by
        apply filterKey_eq_nil_of_obj
        intro c hc
        obtain ⟨e, he, hce⟩ := List.mem_flatMap.mp hc
        rw [hobj e (List.mem_cons_of_mem _ he) c hce]
        intro hcon
        refine hnd.1 ?_
        rw [← hcon]
        exact List.mem_map.mpr ⟨e, he, rfl⟩
      rw [hxs, List.append_nil, List.lookup_cons]
      simp
    · have hx : filterKey κ (g (k, v)) = [] := by
        apply filterKey_eq_nil_of_obj
        intro c hc
        rw [hobj (k, v) (List.mem_cons_self _ _) c hc]
        exact hk
      rw [hx, List.nil_append, List.lookup_cons]
      have : (κ.2 == k) = false := by
        simp only [beq_eq_false_iff_ne]
        exact fun hcon => hk hcon.symm
      simp only [this]
      exact ih hnd.2 g (fun e he => hobj e (List.mem_cons_of_mem _ he))

/-! Object and kind of each block's changes. -/

theorem obj_diffTableColumns {c : Change} {ft tt : Table} (hc : c ∈ diffTableColumns ft tt) :
    c.object = ft.name := by
  unfold diffTableColumns at hc
  split_ifs at hc
  · simp at hc; subst hc; rfl
  · simp at hc; subst hc; rfl
  · simp at hc; subst hc; rfl
  · simp at hc; subst hc; rfl
  · simp only [List.mem_map] at hc
    obtain ⟨col, _, rfl⟩ := hc
    rfl

theorem type_diffTableColumns {c : Change} {ft tt : Table} (hc : c ∈ diffTableColumns ft tt) :
    c.type = ChangeType.recreateTable ∨ c.type = ChangeType.addColumn := by
  unfold diffTableColumns at hc
  split_ifs at hc
  · simp at hc; subst hc; left; rfl
  · simp at hc; subst hc; left; rfl
  · simp at hc; subst hc; left; rfl
  · simp at hc; subst hc; left; rfl
  · simp only [List.mem_map] at hc
    obtain ⟨col, _, rfl⟩ := hc
    right; rfl

theorem type_diffTables {c : Change} {f t : Database} (hc : c ∈ diffTables f t) :
    c.type = ChangeType.dropTable ∨ c.type = ChangeType.createTable
      ∨ c.type = ChangeType.recreateTable ∨ c.type = ChangeType.addColumn := by
  unfold diffTables at hc
  simp only [List.mem_append, List.mem_flatMap] at hc
  rcases hc with (⟨e, _, he⟩ | ⟨e, _, he⟩) | ⟨e, _, he⟩
  · split_ifs at he <;> simp at he
    subst he; left; rfl
  · split_ifs at he <;> simp at he
    subst he; right; left; rfl
  · cases hl : List.lookup e.1 f.tables with
    | none => rw [hl] at he; simp at he
    | some ft =>
      rw [hl] at he
      rcases type_diffTableColumns he with h | h
      · right; right; left; exact h
      · right; right; right; exact h

theorem type_diffIndexes {c : Change} {f t : Database} {recs dropped : List String}
    (hc : c ∈ diffIndexes f t recs dropped) :
    c.type = ChangeType.dropIndex ∨ c.type = ChangeType.createIndex := by
  unfold diffIndexes at hc
  simp only [List.mem_append, List.mem_flatMap] at hc
  rcases hc with ⟨e, _, he⟩ | ⟨e, _, he⟩
  · split_ifs at he <;> simp at he
    all_goals (subst he; left; rfl)
  · split_ifs at he
    · simp at he; subst he; right; rfl
    · cases hl : List.lookup e.1 f.indexes with
      | none => simp only [hl] at he; simp at he; subst he; right; rfl
      | some fidx =>
        simp only [hl] at he
        split_ifs at he
        · rcases List.mem_cons.mp he with rfl | he
          · left; rfl
          · simp at he; subst he; right; rfl
        · simp at he

theorem type_diffViews {c : Change} {f t : Database} (hc : c ∈ diffViews f t) :
    c.type = ChangeType.dropView ∨ c.type = ChangeType.createView := by
  unfold diffViews at hc
  simp only [List.mem_append, List.mem_flatMap] at hc
  rcases hc with ⟨e, _, he⟩ | ⟨e, _, he⟩
  · split_ifs at he <;> simp at he
    subst he; left; rfl
  · cases hl : List.lookup e.1 f.views with
    | none => simp only [hl] at he; simp at he; subst he; right; rfl
    | some fv =>
      simp only [hl] at he
      split_ifs at he
      · rcases List.mem_cons.mp he with rfl | he
        · left; rfl
        · simp at he; subst he; right; rfl
      · simp at he

theorem type_diffTriggers {c : Change} {f t : Database} {recs dropped : List String}
    (hc : c ∈ diffTriggers f t recs dropped) :
    c.type = ChangeType.dropTrigger ∨ c.type = ChangeType.createTrigger := by
  unfold diffTriggers at hc
  simp only [List.mem_append, List.mem_flatMap] at hc
  rcases hc with ⟨e, _, he⟩ | ⟨e, _, he⟩
  · split_ifs at he <;> simp at he
    all_goals (subst he; left; rfl)
  · split_ifs at he
    · simp at he; subst he; right; rfl
    · cases hl : List.lookup e.1 f.triggers with
      | none => simp only [hl] at he; simp at he; subst he; right; rfl
      | some ftr =>
        simp only [hl] at he
        split_ifs at he
        · rcases List.mem_cons.mp he with rfl | he
          · left; rfl
          · simp at he; subst he; right; rfl
        · simp at he

/-- An entry looked up in a duplicate-free association list is an entry
of the list. -/
theorem mem_of_lookup_eq_some {β : Type} :
    ∀ {l : List (String × β)} {k : String} {v : β},
      List.lookup k l = some v → (k, v) ∈ l := by
  intro l
  induction l with
  | nil => intro k v h; simp [List.lookup] at h
  | cons x xs ih =>
    intro k v h
    obtain ⟨a, b⟩ := x
    rw [List.lookup_cons] at h
    by_cases hk : (k == a) = true
    · simp only [hk] at h
      simp only [beq_iff_eq] at hk
      injection h with h
      subst hk h
      exact List.mem_cons_self _ _
    · simp only [Bool.not_eq_true] at hk
      simp only [hk] at h
      exact List.mem_cons_of_mem _ (ih h)

/-- The per-key filter of the table block, as a function of two
lookups. -/
theorem filterKey_diffTables (f t : Database)
    (hndf : (f.tables.map Prod.fst).Nodup) (hndt : (t.tables.map Prod.fst).Nodup)
    (hnames : ∀ e ∈ f.tables, e.2.name = e.1) (κ : Nat × String) :
    filterKey κ (diffTables f t) =
      (match List.lookup κ.2 f.tables with
       | some _ =>
         filterKey κ (if (List.lookup κ.2 t.tables).isNone then [dropTableChange κ.2] else [])
       | none => [])
      ++ (match List.lookup κ.2 t.tables with
       | some tb =>
         filterKey κ (if (List.lookup κ.2 f.tables).isNone then [createTableChange κ.2 tb] else [])
       | none => [])
      ++ (match List.lookup κ.2 t.tables with
       | some tb =>
         filterKey κ (match List.lookup κ.2 f.tables with
           | some ft => diffTableColumns ft tb
           | none => [])
       | none => []) := by
  unfold diffTables
  rw [filterKey_append, filterKey_append]
  rw [filterKey_flatMap_assoc κ f.tables hndf _ ?hdrop]
  rw [filterKey_flatMap_assoc κ t.tables hndt _ ?hcreate]
  rw [filterKey_flatMap_assoc κ t.tables hndt _ ?hmod]
  cases hlf2 : List.lookup κ.2 f.tables <;> cases hlt2 : List.lookup κ.2 t.tables <;> simp [hlf2, hlt2]
  case hdrop =>
    intro e _ c hc
    split_ifs at hc <;> simp at hc
    subst hc; rfl
  case hcreate =>
    intro e _ c hc
    split_ifs at hc <;> simp at hc
    subst hc; rfl
  case hmod =>
    intro e _ c hc
    cases hl : List.lookup e.1 f.tables with
    | none => rw [hl] at hc; simp at hc
    | some ft =>
      rw [hl] at hc
      rw [obj_diffTableColumns hc]
      exact hnames (e.1, ft) (mem_of_lookup_eq_some hl)

/-- The per-key filter of the index block, as a function of lookups and
the two cascade sets. -/
theorem filterKey_diffIndexes (f t : Database) (recs dropped : List String)
    (hndf : (f.indexes.map Prod.fst).Nodup) (hndt : (t.indexes.map Prod.fst).Nodup)
    (κ : Nat × String) :
    filterKey κ (diffIndexes f t recs dropped) =
      (match List.lookup κ.2 f.indexes with
       | some idx =>
         filterKey κ (if recs.contains idx.table || dropped.contains idx.table then []
           else if (List.lookup κ.2 t.indexes).isNone then [dropIndexChange κ.2] else [])
       | none => [])
      ++ (match List.lookup κ.2 t.indexes with
       | some idx =>
         filterKey κ (if recs.contains idx.table then [createIndexChange κ.2 idx]
           else match List.lookup κ.2 f.indexes with
             | none => [createIndexChange κ.2 idx]
             | some fidx =>
               if normalizeSQL fidx.sql false != normalizeSQL idx.sql false then
                 [dropIndexRecreateChange κ.2, createIndexChange κ.2 idx]
               else [])
       | none => []) := by
  unfold diffIndexes
  rw [filterKey_append]
  rw [filterKey_flatMap_assoc κ f.indexes hndf _ ?hdrop]
  rw [filterKey_flatMap_assoc κ t.indexes hndt _ ?hcreate]
  cases hlf2 : List.lookup κ.2 f.indexes <;> cases hlt2 : List.lookup κ.2 t.indexes <;> simp [hlf2, hlt2]
  case hdrop =>
    intro e _ c hc
    split_ifs at hc <;> simp at hc
    subst hc; rfl
  case hcreate =>
    intro e _ c hc
    split_ifs at hc
    · simp at hc; subst hc; rfl
    · cases hl : List.lookup e.1 f.indexes with
      | none => simp only [hl] at hc; simp at hc; subst hc; rfl
      | some fidx =>
        simp only [hl] at hc
        split_ifs at hc
        · rcases List.mem_cons.mp hc with rfl | hc
          · rfl
          · simp at hc; subst hc; rfl
        · simp at hc

/-- The per-key filter of the view block. -/
theorem filterKey_diffViews (f t : Database)
    (hndf : (f.views.map Prod.fst).Nodup) (hndt : (t.views.map Prod.fst).Nodup)
    (κ : Nat × String) :
    filterKey κ (diffViews f t) =
      (match List.lookup κ.2 f.views with
       | some _ =>
         filterKey κ (if (List.lookup κ.2 t.views).isNone then [dropViewChange κ.2] else [])
       | none => [])
      ++ (match List.lookup κ.2 t.views with
       | some v =>
         filterKey κ (match List.lookup κ.2 f.views with
           | none => [createViewChange κ.2 v]
           | some fv =>
             if normalizeSQL fv.sql false != normalizeSQL v.sql false then
               [dropViewRecreateChange κ.2, createViewChange κ.2 v]
             else [])
       | none => []) := by
  unfold diffViews
  rw [filterKey_append]
  rw [filterKey_flatMap_assoc κ f.views hndf _ ?hdrop]
  rw [filterKey_flatMap_assoc κ t.views hndt _ ?hcreate]
  cases hlf2 : List.lookup κ.2 f.views <;> cases hlt2 : List.lookup κ.2 t.views <;> simp [hlf2, hlt2]
  case hdrop =>
    intro e _ c hc
    split_ifs at hc <;> simp at hc
    subst hc; rfl
  case hcreate =>
    intro e _ c hc
    cases hl : List.lookup e.1 f.views with
    | none => simp only [hl] at hc; simp at hc; subst hc; rfl
    | some fv =>
      simp only [hl] at hc
      split_ifs at hc
      · rcases List.mem_cons.mp hc with rfl | hc
        · rfl
        · simp at hc; subst hc; rfl
      · simp at hc

/-- The per-key filter of the trigger block. -/
theorem filterKey_diffTriggers (f t : Database) (recs dropped : List String)
    (hndf : (f.triggers.map Prod.fst).Nodup) (hndt : (t.triggers.map Prod.fst).Nodup)
    (κ : Nat × String) :
    filterKey κ (diffTriggers f t recs dropped) =
      (match List.lookup κ.2 f.triggers with
       | some tr =>
         filterKey κ (if recs.contains tr.table || dropped.contains tr.table then []
           else if (List.lookup κ.2 t.triggers).isNone then [dropTriggerChange κ.2] else [])
       | none => [])
      ++ (match List.lookup κ.2 t.triggers with
       | some tr =>
         filterKey κ (if recs.contains tr.table then [createTriggerChange κ.2 tr]
           else match List.lookup κ.2 f.triggers with
             | none => [createTriggerChange κ.2 tr]
             | some ftr =>
               if normalizeSQL ftr.sql false != normalizeSQL tr.sql false then
                 [dropTriggerRecreateChange κ.2, createTriggerChange κ.2 tr]
               else [])
       | none => []) := by
  unfold diffTriggers
  rw [filterKey_append]
  rw [filterKey_flatMap_assoc κ f.triggers hndf _ ?hdrop]
  rw [filterKey_flatMap_assoc κ t.triggers hndt _ ?hcreate]
  cases hlf2 : List.lookup κ.2 f.triggers <;> cases hlt2 : List.lookup κ.2 t.triggers <;> simp [hlf2, hlt2]
  case hdrop =>
    intro e _ c hc
    split_ifs at hc <;> simp at hc
    subst hc; rfl
  case hcreate =>
    intro e _ c hc
    split_ifs at hc
    · simp at hc; subst hc; rfl
    · cases hl : List.lookup e.1 f.triggers with
      | none => simp only [hl] at hc; simp at hc; subst hc; rfl
      | some ftr =>
        simp only [hl] at hc
        split_ifs at hc
        · rcases List.mem_cons.mp hc with rfl | hc
          · rfl
          · simp at hc; subst hc; rfl
        · simp at hc

theorem filterKey_singleton (κ : Nat × String) (c : Change) :
    filterKey κ [c] = if chKey c = κ then [c] else [] := by
  unfold filterKey
  rw [List.filter_cons]
  simp only [decide_eq_true_eq, List.filter_nil]

/-- Kind-and-object predicates are sort-key predicates (the priority map
is injective). -/
theorem key_pred_eq (ct : ChangeType) (n : String) (c : Change) :
    (c.type == ct && c.object == n) = decide (chKey c = (priority ct, n)) := by
  cases hct : c.type <;> cases ct <;>
    simp [chKey, priority, hct, Prod.ext_iff] <;>
    (try (by_cases hobj : c.object = n <;> simp [hobj]))

/-- The per-key filter of a plan is the concatenation of the per-key
filters of its four blocks. -/
theorem filterKey_Diff_decomp (f t : Database) (κ : Nat × String) :
    filterKey κ (Diff f t) =
      filterKey κ (diffTables f t)
      ++ filterKey κ (diffIndexes f t (recSet f t) (droppedSet f t))
      ++ filterKey κ (diffViews f t)
      ++ filterKey κ (diffTriggers f t (recSet f t) (droppedSet f t)) := by
  have h1 : filterKey κ (Diff f t) =
      filterKey κ (diffTables f t ++ diffIndexes f t (recSet f t) (droppedSet f t)
        ++ diffViews f t ++ diffTriggers f t (recSet f t) (droppedSet f t)) :=
    sortChanges_filterKey _ κ
  rw [h1, filterKey_append, filterKey_append, filterKey_append]

/-- At a table-kind priority, only the table block contributes. -/
theorem filterKey_Diff_table_key (f t : Database) (κ : Nat × String)
    (hpr : κ.1 = 4 ∨ κ.1 = 5 ∨ κ.1 = 6 ∨ κ.1 = 7) :
    filterKey κ (Diff f t) = filterKey κ (diffTables f t) := by
  rw [filterKey_Diff_decomp]
  have hidx : filterKey κ (diffIndexes f t (recSet f t) (droppedSet f t)) = [] := by
    apply filterKey_eq_nil_of_priority
    intro c hc
    rcases type_diffIndexes hc with h | h <;> rw [h] <;> simp [priority] <;> omega
  have hv : filterKey κ (diffViews f t) = [] := by
    apply filterKey_eq_nil_of_priority
    intro c hc
    rcases type_diffViews hc with h | h <;> rw [h] <;> simp [priority] <;> omega
  have htr : filterKey κ (diffTriggers f t (recSet f t) (droppedSet f t)) = [] := by
    apply filterKey_eq_nil_of_priority
    intro c hc
    rcases type_diffTriggers hc with h | h <;> rw [h] <;> simp [priority] <;> omega
  rw [hidx, hv, htr, List.append_nil, List.append_nil, List.append_nil]

/-- At an index-kind priority, only the index block contributes. -/
theorem filterKey_Diff_index_key (f t : Database) (κ : Nat × String)
    (hpr : κ.1 = 3 ∨ κ.1 = 8) :
    filterKey κ (Diff f t) = filterKey κ (diffIndexes f t (recSet f t) (droppedSet f t)) := by
  rw [filterKey_Diff_decomp]
  have htab : filterKey κ (diffTables f t) = [] := by
    apply filterKey_eq_nil_of_priority
    intro c hc
    rcases type_diffTables hc with h | h | h | h <;> rw [h] <;> simp [priority] <;> omega
  have hv : filterKey κ (diffViews f t) = [] := by
    apply filterKey_eq_nil_of_priority
    intro c hc
    rcases type_diffViews hc with h | h <;> rw [h] <;> simp [priority] <;> omega
  have htr : filterKey κ (diffTriggers f t (recSet f t) (droppedSet f t)) = [] := by
    apply filterKey_eq_nil_of_priority
    intro c hc
    rcases type_diffTriggers hc with h | h <;> rw [h] <;> simp [priority] <;> omega
  rw [htab, hv, htr, List.nil_append, List.append_nil, List.append_nil]

/-- When the new columns are not a pure append, `diffTableColumns` is
the single recreate change (whichever decision rule fires first). -/
theorem diffTableColumns_recreate_of_notAppended {ft tt : Table}
    (hpos : newColumnsAppended ft tt = false) :
    diffTableColumns ft tt = [recreateTableChange ft.name ft tt] := by
  unfold diffTableColumns
  split_ifs with h1 h2 h3 h4
  · rfl
  · rfl
  · rfl
  · rfl
  · exact absurd (by simp [hpos]) h3

/-! ## Claim C1: a mid-sequence column insertion forces recreation -/

/-- C1: when a table exists in both snapshots and `to` adds at least one
column at a position that is not the end of `from`'s column sequence
(the prefix of the `to` columns up to the first new column does not
match `from`'s sequence, i.e. `newColumnsAppended` is false), the plan
contains exactly one destructive `recreate_table` change for that table
and no `add_column` change for it. -/
theorem midInsertRecreates (f t : Database) (n : String) (ft tt : Table)
    (hwf : wellFormed f) (hwt : wellFormed t)
    (hlf : List.lookup n f.tables = some ft)
    (hlt : List.lookup n t.tables = some tt)
    (hnew : newColumns ft tt ≠ [])
    (hpos : newColumnsAppended ft tt = false) :
    (Diff f t).countP
        (fun c => (c.type == ChangeType.recreateTable && c.object == n) && c.destructive) = 1
    ∧ (Diff f t).countP (fun c => c.type == ChangeType.addColumn && c.object == n) = 0 := by
  obtain ⟨hndfT, _, _, _, hnamesf, _⟩ := hwf
  obtain ⟨hndtT, _, _, _, _, _⟩ := hwt
  have hftn : ft.name = n := hnamesf (n, ft) (mem_of_lookup_eq_some hlf)
  have hrec : diffTableColumns ft tt = [recreateTableChange n ft tt] := by
    rw [diffTableColumns_recreate_of_notAppended hpos, hftn]
  have htabkey : ∀ κ : Nat × String, κ.2 = n → κ.1 = 5 ∨ κ.1 = 7 →
      filterKey κ (diffTables f t) = filterKey κ [recreateTableChange n ft tt] := by
    intro κ hk2 hk1
    rw [filterKey_diffTables f t hndfT hndtT hnamesf κ, hk2, hlf, hlt]
    simp [hrec, filterKey]
  have h5 : filterKey (5, n) (Diff f t) = [recreateTableChange n ft tt] := by
    rw [filterKey_Diff_table_key f t (5, n) (by simp)]
    rw [htabkey (5, n) rfl (by simp)]
    rw [filterKey_singleton]
    rw [if_pos (by simp [chKey, recreateTableChange, priority])]
  have h7 : filterKey (7, n) (Diff f t) = [] := by
    rw [filterKey_Diff_table_key f t (7, n) (by simp)]
    rw [htabkey (7, n) rfl (by simp)]
    rw [filterKey_singleton]
    rw [if_neg (by simp [chKey, recreateTableChange, priority])]
  constructor
  · have hpred : ∀ c ∈ Diff f t,
        ((c.type == ChangeType.recreateTable && c.object == n) && c.destructive) = true ↔
          (c.destructive && decide (chKey c = (5, n))) = true := by
      intro c _
      rw [key_pred_eq ChangeType.recreateTable n c]
      show (decide (chKey c = (priority ChangeType.recreateTable, n)) && c.destructive) = true ↔ _
      rw [Bool.and_comm]
      rfl
    rw [List.countP_congr hpred, ← List.countP_filter]
    have : List.filter (fun c => decide (chKey c = (5, n))) (Diff f t)
        = [recreateTableChange n ft tt] := h5
    rw [this]
    simp [recreateTableChange]
  · have hpred : ∀ c ∈ Diff f t,
        (c.type == ChangeType.addColumn && c.object == n) = true ↔
          decide (chKey c = (7, n)) = true := by
      intro c _
      rw [key_pred_eq ChangeType.addColumn n c]
      rfl
    rw [List.countP_congr hpred, List.countP_eq_length_filter]
    have : List.filter (fun c => decide (chKey c = (7, n))) (Diff f t) = [] := h7
    rw [this]
    rfl

/-- Witness for C1: the spec's scenario 2 — `from` has `(id, a, c)`,
`to` has `(id, a, b, c)` with `b` inserted mid-sequence. -/
theorem midInsertRecreatesWitness :
    newColumnsAppended
        (Table.mk "t" [Column.mk "id" "INTEGER" false none 1, Column.mk "a" "TEXT" false none 0,
          Column.mk "c" "TEXT" false none 0] "CREATE TABLE t (id INTEGER PRIMARY KEY, a TEXT, c TEXT)")
        (Table.mk "t" [Column.mk "id" "INTEGER" false none 1, Column.mk "a" "TEXT" false none 0,
          Column.mk "b" "TEXT" false none 0, Column.mk "c" "TEXT" false none 0]
          "CREATE TABLE t (id INTEGER PRIMARY KEY, a TEXT, b TEXT, c TEXT)") = false
    ∧ (Diff
        (Database.mk [("t", Table.mk "t" [Column.mk "id" "INTEGER" false none 1,
          Column.mk "a" "TEXT" false none 0, Column.mk "c" "TEXT" false none 0]
          "CREATE TABLE t (id INTEGER PRIMARY KEY, a TEXT, c TEXT)")] [] [] [])
        (Database.mk [("t", Table.mk "t" [Column.mk "id" "INTEGER" false none 1,
          Column.mk "a" "TEXT" false none 0, Column.mk "b" "TEXT" false none 0,
          Column.mk "c" "TEXT" false none 0]
          "CREATE TABLE t (id INTEGER PRIMARY KEY, a TEXT, b TEXT, c TEXT)")] [] [] [])).countP
        (fun c => (c.type == ChangeType.recreateTable && c.object == "t") && c.destructive) = 1 :=
  ⟨by decide,
    (midInsertRecreates
      (Database.mk [("t", Table.mk "t" [Column.mk "id" "INTEGER" false none 1,
        Column.mk "a" "TEXT" false none 0, Column.mk "c" "TEXT" false none 0]
        "CREATE TABLE t (id INTEGER PRIMARY KEY, a TEXT, c TEXT)")] [] [] [])
      (Database.mk [("t", Table.mk "t" [Column.mk "id" "INTEGER" false none 1,
        Column.mk "a" "TEXT" false none 0, Column.mk "b" "TEXT" false none 0,
        Column.mk "c" "TEXT" false none 0]
        "CREATE TABLE t (id INTEGER PRIMARY KEY, a TEXT, b TEXT, c TEXT)")] [] [] [])
      "t"
      (Table.mk "t" [Column.mk "id" "INTEGER" false none 1, Column.mk "a" "TEXT" false none 0,
        Column.mk "c" "TEXT" false none 0] "CREATE TABLE t (id INTEGER PRIMARY KEY, a TEXT, c TEXT)")
      (Table.mk "t" [Column.mk "id" "INTEGER" false none 1, Column.mk "a" "TEXT" false none 0,
        Column.mk "b" "TEXT" false none 0, Column.mk "c" "TEXT" false none 0]
        "CREATE TABLE t (id INTEGER PRIMARY KEY, a TEXT, b TEXT, c TEXT)")
      (by decide) (by decide) (by decide) (by decide) (by decide) (by decide)).1⟩

/-- Counting a kind-and-object predicate is measuring the per-key
filter. -/
theorem countP_key (f t : Database) (ct : ChangeType) (n : String) :
    (Diff f t).countP (fun c => c.type == ct && c.object == n)
      = (filterKey (priority ct, n) (Diff f t)).length := by
  have hpred : ∀ c ∈ Diff f t, (c.type == ct && c.object == n) = true ↔
      decide (chKey c = (priority ct, n)) = true := fun c _ => by rw [key_pred_eq]
  rw [List.countP_congr hpred, List.countP_eq_length_filter]
  rfl

/-! ## Claim C3: a dropped table cascades its index -/

/-- C3: when table `p` exists only in `from` and index `i` on `p` also
exists only in `from`, the plan contains exactly one change targeting
either object — a `drop_table` for `p` (first four conjuncts: one
drop_table and no other table-kind change for `p`; conjuncts five and
six: no index-kind change for `i`, in particular no `drop_index`) — and
every `drop_table` change for `p` is destructive (last conjunct). -/
theorem dropTableCascadesIndex (f t : Database) (p i : String) (pt : Table) (idx : Index)
    (hwf : wellFormed f) (hwt : wellFormed t)
    (hpf : List.lookup p f.tables = some pt) (hpt : List.lookup p t.tables = none)
    (hif : List.lookup i f.indexes = some idx) (hit : List.lookup i t.indexes = none)
    (hown : idx.table = p) :
    (Diff f t).countP (fun c => c.type == ChangeType.dropTable && c.object == p) = 1
    ∧ (Diff f t).countP (fun c => c.type == ChangeType.createTable && c.object == p) = 0
    ∧ (Diff f t).countP (fun c => c.type == ChangeType.recreateTable && c.object == p) = 0
    ∧ (Diff f t).countP (fun c => c.type == ChangeType.addColumn && c.object == p) = 0
    ∧ (Diff f t).countP (fun c => c.type == ChangeType.dropIndex && c.object == i) = 0
    ∧ (Diff f t).countP (fun c => c.type == ChangeType.createIndex && c.object == i) = 0
    ∧ ∀ c ∈ Diff f t, c.type = ChangeType.dropTable → c.object = p → c.destructive = true := by
  obtain ⟨hndfT, hndfI, _, _, hnamesf, _⟩ := hwf
  obtain ⟨hndtT, hndtI, _, _, _, _⟩ := hwt
  have htab : ∀ κ : Nat × String, κ.2 = p → κ.1 = 4 ∨ κ.1 = 5 ∨ κ.1 = 6 ∨ κ.1 = 7 →
      filterKey κ (diffTables f t) = filterKey κ [dropTableChange p] := by
    intro κ hk2 hk1
    rw [filterKey_diffTables f t hndfT hndtT hnamesf κ, hk2, hpf, hpt]
    simp
  have hdropmem : p ∈ droppedSet f t := by
    unfold droppedSet
    rw [List.mem_filterMap]
    refine ⟨(p, pt), mem_of_lookup_eq_some hpf, ?_⟩
    rw [hpt]
    rfl
  have hidx : ∀ κ : Nat × String, κ.2 = i →
      filterKey κ (diffIndexes f t (recSet f t) (droppedSet f t)) = [] := by
    intro κ hk2
    rw [filterKey_diffIndexes f t (recSet f t) (droppedSet f t) hndfI hndtI κ, hk2, hif, hit]
    simp [hown, hdropmem, filterKey]
  refine ⟨?_, ?_, ?_, ?_, ?_, ?_, ?_⟩
  · rw [countP_key, filterKey_Diff_table_key f t _ (by simp [priority]),
      htab _ rfl (by simp [priority]), filterKey_singleton,
      if_pos (by simp [chKey, dropTableChange, priority])]
    rfl
  · rw [countP_key, filterKey_Diff_table_key f t _ (by simp [priority]),
      htab _ rfl (by simp [priority]), filterKey_singleton,
      if_neg (by simp [chKey, dropTableChange, priority])]
    rfl
  · rw [countP_key, filterKey_Diff_table_key f t _ (by simp [priority]),
      htab _ rfl (by simp [priority]), filterKey_singleton,
      if_neg (by simp [chKey, dropTableChange, priority])]
    rfl
  · rw [countP_key, filterKey_Diff_table_key f t _ (by simp [priority]),
      htab _ rfl (by simp [priority]), filterKey_singleton,
      if_neg (by simp [chKey, dropTableChange, priority])]
    rfl
  · rw [countP_key, filterKey_Diff_index_key f t _ (by simp [priority]), hidx _ rfl]
    rfl
  · rw [countP_key, filterKey_Diff_index_key f t _ (by simp [priority]), hidx _ rfl]
    rfl
  · intro c hc hct hco
    have hmem : c ∈ filterKey (4, p) (Diff f t) := by
      unfold filterKey
      rw [List.mem_filter]
      refine ⟨hc, ?_⟩
      simp [chKey, hct, hco, priority]
    rw [filterKey_Diff_table_key f t _ (by simp), htab _ rfl (by simp),
      filterKey_singleton, if_pos (by simp [chKey, dropTableChange, priority])] at hmem
    simp at hmem
    rw [hmem]
    rfl

/-- Witness for C3 at the spec's scenario 4: `from` has table `p` and
index `i_p` on it, `to` has neither. -/
theorem dropTableCascadesIndexWitness :
    List.lookup "i_p"
        (Database.mk [("p", Table.mk "p" [Column.mk "id" "INTEGER" false none 1] "CREATE TABLE p (id INTEGER PRIMARY KEY)")]
          [("i_p", Index.mk "i_p" "p" "CREATE INDEX i_p ON p(id)")] [] []).indexes
        = some (Index.mk "i_p" "p" "CREATE INDEX i_p ON p(id)")
    ∧ (Diff
        (Database.mk [("p", Table.mk "p" [Column.mk "id" "INTEGER" false none 1] "CREATE TABLE p (id INTEGER PRIMARY KEY)")]
          [("i_p", Index.mk "i_p" "p" "CREATE INDEX i_p ON p(id)")] [] [])
        (Database.mk [] [] [] [])).countP
        (fun c => c.type == ChangeType.dropTable && c.object == "p") = 1
    ∧ (Diff
        (Database.mk [("p", Table.mk "p" [Column.mk "id" "INTEGER" false none 1] "CREATE TABLE p (id INTEGER PRIMARY KEY)")]
          [("i_p", Index.mk "i_p" "p" "CREATE INDEX i_p ON p(id)")] [] [])
        (Database.mk [] [] [] [])).countP
        (fun c => c.type == ChangeType.dropIndex && c.object == "i_p") = 0 :=
  ⟨by decide,
    (dropTableCascadesIndex
      (Database.mk [("p", Table.mk "p" [Column.mk "id" "INTEGER" false none 1] "CREATE TABLE p (id INTEGER PRIMARY KEY)")]
        [("i_p", Index.mk "i_p" "p" "CREATE INDEX i_p ON p(id)")] [] [])
      (Database.mk [] [] [] []) "p" "i_p"
      (Table.mk "p" [Column.mk "id" "INTEGER" false none 1] "CREATE TABLE p (id INTEGER PRIMARY KEY)")
      (Index.mk "i_p" "p" "CREATE INDEX i_p ON p(id)")
      (by decide) (by decide) (by decide) (by decide) (by decide) (by decide) (by decide)).1,
    (dropTableCascadesIndex
      (Database.mk [("p", Table.mk "p" [Column.mk "id" "INTEGER" false none 1] "CREATE TABLE p (id INTEGER PRIMARY KEY)")]
        [("i_p", Index.mk "i_p" "p" "CREATE INDEX i_p ON p(id)")] [] [])
      (Database.mk [] [] [] []) "p" "i_p"
      (Table.mk "p" [Column.mk "id" "INTEGER" false none 1] "CREATE TABLE p (id INTEGER PRIMARY KEY)")
      (Index.mk "i_p" "p" "CREATE INDEX i_p ON p(id)")
      (by decide) (by decide) (by decide) (by decide) (by decide) (by decide) (by decide)).2.2.2.2.1⟩

/-! ## Claim C10: independence from map iteration order -/

/-- Lookup in a duplicate-free association list is invariant under
permutation (Go map semantics: the key-value mapping, not the order,
determines a lookup). -/
theorem lookup_perm {β : Type} :
    ∀ {l₁ l₂ : List (String × β)}, l₁.Perm l₂ →
      (l₁.map Prod.fst).Nodup → ∀ k, List.lookup k l₁ = List.lookup k l₂ := by
  intro l₁ l₂ h
  induction h with
  | nil => intro _ k; rfl
  | cons x h ih =>
    intro hnd k
    obtain ⟨a, b⟩ := x
    rw [List.map_cons, List.nodup_cons] at hnd
    rw [List.lookup_cons, List.lookup_cons]
    cases hka : k == a
    · exact ih hnd.2 k
    · rfl
  | swap x y l =>
    intro hnd k
    obtain ⟨a, b⟩ := x
    obtain ⟨c, d⟩ := y
    simp only [List.map_cons, List.nodup_cons, List.mem_cons] at hnd
    rw [List.lookup_cons, List.lookup_cons, List.lookup_cons, List.lookup_cons]
    cases hka : k == a <;> cases hkc : k == c <;> try rfl
    simp only [beq_iff_eq] at hka hkc
    exact absurd (Or.inl (hkc.symm.trans hka)) hnd.1
  | trans h1 h2 ih1 ih2 =>
    intro hnd k
    rw [ih1 hnd k]
    exact ih2 (((h1.map Prod.fst).nodup_iff).mp hnd) k

theorem contains_eq_of_perm {l₁ l₂ : List String} (h : l₁.Perm l₂) (a : String) :
    l₁.contains a = l₂.contains a := by
  by_cases hm : a ∈ l₁
  · have hm2 : a ∈ l₂ := h.mem_iff.mp hm
    simp [hm, hm2]
  · have hm2 : a ∉ l₂ := fun hc => hm (h.mem_iff.mpr hc)
    simp [hm, hm2]

/-- Structural equality of two snapshots as Go map values: each of the
four maps holds the same key-value pairs, in whatever order. -/
def dbPerm (a b : Database) : Prop :=
  a.tables.Perm b.tables ∧ a.indexes.Perm b.indexes ∧ a.views.Perm b.views
    ∧ a.triggers.Perm b.triggers

instance (a b : Database) : Decidable (dbPerm a b) := by
  unfold dbPerm; infer_instance

theorem recSet_perm {f₁ t₁ f₂ t₂ : Database}
    (hndf : (f₁.tables.map Prod.fst).Nodup)
    (hpf : f₁.tables.Perm f₂.tables) (hpt : t₁.tables.Perm t₂.tables) :
    (recSet f₁ t₁).Perm (recSet f₂ t₂) := by
  unfold recSet
  have hcongr : t₁.tables.filterMap (fun e =>
      match List.lookup e.1 f₁.tables with
      | some ft =>
        if (diffTableColumns ft e.2).any (fun c => c.type == ChangeType.recreateTable) then
          some e.1
        else none
      | none => none) = t₁.tables.filterMap (fun e =>
      match List.lookup e.1 f₂.tables with
      | some ft =>
        if (diffTableColumns ft e.2).any (fun c => c.type == ChangeType.recreateTable) then
          some e.1
        else none
      | none => none) := by
    apply List.filterMap_congr
    intro e _
    rw [lookup_perm hpf hndf e.1]
  rw [hcongr]
  exact hpt.filterMap _

theorem droppedSet_perm {f₁ t₁ f₂ t₂ : Database}
    (hndt : (t₁.tables.map Prod.fst).Nodup)
    (hpf : f₁.tables.Perm f₂.tables) (hpt : t₁.tables.Perm t₂.tables) :
    (droppedSet f₁ t₁).Perm (droppedSet f₂ t₂) := by
  unfold droppedSet
  have hcongr : f₁.tables.filterMap (fun e =>
      if (List.lookup e.1 t₁.tables).isNone then some e.1 else none)
      = f₁.tables.filterMap (fun e =>
      if (List.lookup e.1 t₂.tables).isNone then some e.1 else none) := by
    apply List.filterMap_congr
    intro e _
    rw [lookup_perm hpt hndt e.1]
  rw [hcongr]
  exact hpf.filterMap _

/-- C10: `Diff` is deterministic — two calls on structurally equal
(well-formed) snapshot pairs return identical change lists, element for
element, although the snapshots store their objects in maps whose
iteration order the embedding leaves arbitrary.  The stable sort on
(priority, object) and the fixed per-table column order make the output
independent of iteration order. -/
theorem diffDeterministic (f₁ t₁ f₂ t₂ : Database)
    (hwf : wellFormed f₁) (hwt : wellFormed t₁)
    (hpf : dbPerm f₁ f₂) (hpt : dbPerm t₁ t₂) :
    Diff f₁ t₁ = Diff f₂ t₂ := by
  obtain ⟨hpfT, hpfI, hpfV, hpfR⟩ := hpf
  obtain ⟨hptT, hptI, hptV, hptR⟩ := hpt
  obtain ⟨hndfT, hndfI, hndfV, hndfR, hnamesf, _⟩ := hwf
  obtain ⟨hndtT, hndtI, hndtV, hndtR, _, _⟩ := hwt
  have hndfT2 : (f₂.tables.map Prod.fst).Nodup := ((hpfT.map Prod.fst).nodup_iff).mp hndfT
  have hndfI2 : (f₂.indexes.map Prod.fst).Nodup := ((hpfI.map Prod.fst).nodup_iff).mp hndfI
  have hndfV2 : (f₂.views.map Prod.fst).Nodup := ((hpfV.map Prod.fst).nodup_iff).mp hndfV
  have hndfR2 : (f₂.triggers.map Prod.fst).Nodup := ((hpfR.map Prod.fst).nodup_iff).mp hndfR
  have hndtT2 : (t₂.tables.map Prod.fst).Nodup := ((hptT.map Prod.fst).nodup_iff).mp hndtT
  have hndtI2 : (t₂.indexes.map Prod.fst).Nodup := ((hptI.map Prod.fst).nodup_iff).mp hndtI
  have hndtV2 : (t₂.views.map Prod.fst).Nodup := ((hptV.map Prod.fst).nodup_iff).mp hndtV
  have hndtR2 : (t₂.triggers.map Prod.fst).Nodup := ((hptR.map Prod.fst).nodup_iff).mp hndtR
  have hnamesf2 : ∀ e ∈ f₂.tables, e.2.name = e.1 := fun e he =>
    hnamesf e (hpfT.mem_iff.mpr he)
  have hLfT : ∀ k, List.lookup k f₁.tables = List.lookup k f₂.tables :=
    lookup_perm hpfT hndfT
  have hLfI : ∀ k, List.lookup k f₁.indexes = List.lookup k f₂.indexes :=
    lookup_perm hpfI hndfI
  have hLfV : ∀ k, List.lookup k f₁.views = List.lookup k f₂.views :=
    lookup_perm hpfV hndfV
  have hLfR : ∀ k, List.lookup k f₁.triggers = List.lookup k f₂.triggers :=
    lookup_perm hpfR hndfR
  have hLtT : ∀ k, List.lookup k t₁.tables = List.lookup k t₂.tables :=
    lookup_perm hptT hndtT
  have hLtI : ∀ k, List.lookup k t₁.indexes = List.lookup k t₂.indexes :=
    lookup_perm hptI hndtI
  have hLtV : ∀ k, List.lookup k t₁.views = List.lookup k t₂.views :=
    lookup_perm hptV hndtV
  have hLtR : ∀ k, List.lookup k t₁.triggers = List.lookup k t₂.triggers :=
    lookup_perm hptR hndtR
  have hrc : ∀ x, (recSet f₁ t₁).contains x = (recSet f₂ t₂).contains x :=
    contains_eq_of_perm (recSet_perm hndfT hpfT hptT)
  have hdc : ∀ x, (droppedSet f₁ t₁).contains x = (droppedSet f₂ t₂).contains x :=
    contains_eq_of_perm (droppedSet_perm hndtT hpfT hptT)
  apply sortedFilterEq_unique
  · exact sortChanges_pairwise _
  · exact sortChanges_pairwise _
  · intro κ
    rw [filterKey_Diff_decomp f₁ t₁ κ, filterKey_Diff_decomp f₂ t₂ κ]
    have hT : filterKey κ (diffTables f₁ t₁) = filterKey κ (diffTables f₂ t₂) := by
      rw [filterKey_diffTables f₁ t₁ hndfT hndtT hnamesf κ,
        filterKey_diffTables f₂ t₂ hndfT2 hndtT2 hnamesf2 κ]
      simp only [hLfT, hLtT]
    have hI : filterKey κ (diffIndexes f₁ t₁ (recSet f₁ t₁) (droppedSet f₁ t₁))
        = filterKey κ (diffIndexes f₂ t₂ (recSet f₂ t₂) (droppedSet f₂ t₂)) := by
      rw [filterKey_diffIndexes f₁ t₁ _ _ hndfI hndtI κ,
        filterKey_diffIndexes f₂ t₂ _ _ hndfI2 hndtI2 κ]
      simp only [hLfI, hLtI, hrc, hdc]
    have hV : filterKey κ (diffViews f₁ t₁) = filterKey κ (diffViews f₂ t₂) := by
      rw [filterKey_diffViews f₁ t₁ hndfV hndtV κ,
        filterKey_diffViews f₂ t₂ hndfV2 hndtV2 κ]
      simp only [hLfV, hLtV]
    have hR : filterKey κ (diffTriggers f₁ t₁ (recSet f₁ t₁) (droppedSet f₁ t₁))
        = filterKey κ (diffTriggers f₂ t₂ (recSet f₂ t₂) (droppedSet f₂ t₂)) := by
      rw [filterKey_diffTriggers f₁ t₁ _ _ hndfR hndtR κ,
        filterKey_diffTriggers f₂ t₂ _ _ hndfR2 hndtR2 κ]
      simp only [hLfR, hLtR, hrc, hdc]
    rw [hT, hI, hV, hR]

/-- Witness for C10: the same two-table snapshot pair presented in both
map orders gives the same plan. -/
theorem diffDeterministicWitness :
    dbPerm
        (Database.mk [("a", Table.mk "a" [] "CREATE TABLE a (x INTEGER)"),
          ("b", Table.mk "b" [] "CREATE TABLE b (x INTEGER)")] [] [] [])
        (Database.mk [("b", Table.mk "b" [] "CREATE TABLE b (x INTEGER)"),
          ("a", Table.mk "a" [] "CREATE TABLE a (x INTEGER)")] [] [] [])
    ∧ Diff
        (Database.mk [("a", Table.mk "a" [] "CREATE TABLE a (x INTEGER)"),
          ("b", Table.mk "b" [] "CREATE TABLE b (x INTEGER)")] [] [] [])
        (Database.mk [] [] [] [])
      = Diff
        (Database.mk [("b", Table.mk "b" [] "CREATE TABLE b (x INTEGER)"),
          ("a", Table.mk "a" [] "CREATE TABLE a (x INTEGER)")] [] [] [])
        (Database.mk [] [] [] []) :=
  ⟨by decide,
    diffDeterministic
      (Database.mk [("a", Table.mk "a" [] "CREATE TABLE a (x INTEGER)"),
        ("b", Table.mk "b" [] "CREATE TABLE b (x INTEGER)")] [] [] [])
      (Database.mk [] [] [] [])
      (Database.mk [("b", Table.mk "b" [] "CREATE TABLE b (x INTEGER)"),
        ("a", Table.mk "a" [] "CREATE TABLE a (x INTEGER)")] [] [] [])
      (Database.mk [] [] [] [])
      (by decide) (by decide) (by decide) (by decide)⟩

end SqliteSchemaDiff
